import Mathlib

/-!
# go-backup: a verification development over `main.go`

The program reads `config.json`, then either backs up every configured
database (`mysqldump | gzip > file`, one goroutine per database, gated by a
buffered channel used as a counting semaphore) or lists the backup directory.

The embedding is shallow:

* pure string computations (`fmt.Sprintf`, `time.Format`, the artifact name)
  are Lean functions on `String`;
* sequential code with effects (`backupDatabase`, the start of `startBackup`,
  `listBackups`, `main`) is a function from the answers of the outside world
  to the list of effects performed, in program order;
* the goroutine fan-out of `startBackup` is a step function on an explicit
  state (program counters of the main goroutine and of every unit, the
  channel's buffer length, the wait-group counter), run along a schedule.

Library routines that live outside the repository (`json.Unmarshal`, the file
system, the subprocesses) are parameters.  `filepath.Join` is a parameter of
the artifact path; where a statement needs its behaviour, it is the function
`Join`, which follows the library on a Unix system.
-/

namespace GoBackup

/-! ## Data model (`main.go`, lines 18-31) -/

/-- One database to back up (`type DBInfo struct`). -/
structure DBInfo where
  DBNumber : String
  DBName : String
  DBUser : String
  DBPassword : String
  DBHost : String
  Remark : String
deriving DecidableEq, Repr

/-- The configuration document (`type DBConfig struct`). -/
structure DBConfig where
  BackupTargetPath : String
  EnableLogging : Bool
  DBLists : List DBInfo
deriving DecidableEq, Repr

/-! ## Library: `fmt.Sprintf` with string verbs -/

/-- Expansion of a format over string operands.  Only the verbs `%s` and `%v`
are interpreted (an `error` operand is represented by its text, which is what
`%v` prints for it); an operand that is missing prints as Go prints it.  Every
other character is copied. -/
def sprintfAux : List Char → List String → List Char
  | '%' :: 's' :: rest, a :: as => a.data ++ sprintfAux rest as
  | '%' :: 'v' :: rest, a :: as => a.data ++ sprintfAux rest as
  | '%' :: 's' :: rest, [] => "%!s(MISSING)".data ++ sprintfAux rest []
  | '%' :: 'v' :: rest, [] => "%!v(MISSING)".data ++ sprintfAux rest []
  | c :: rest, as => c :: sprintfAux rest as
  | [], _ => []

/-- The call `fmt.Sprintf(format, args...)` for string operands. -/
def Sprintf (format : String) (args : List String) : String :=
  ⟨sprintfAux format.data args⟩

/-! ## Library: `time.Time.Format` -/

/-- A wall-clock reading, as `time.Now()` presents it to `Format`: the
calendar date and clock time in the local zone, with the sub-second part. -/
structure Time where
  year : Nat
  month : Nat
  day : Nat
  hour : Nat
  minute : Nat
  second : Nat
  nanosecond : Nat
deriving DecidableEq, Repr

/-- The ranges `time.Time` guarantees for the fields of a reading. -/
def Time.wellFormed (t : Time) : Prop :=
  1 ≤ t.month ∧ t.month ≤ 12 ∧ 1 ≤ t.day ∧ t.day ≤ 31 ∧
  t.hour < 24 ∧ t.minute < 60 ∧ t.second < 60 ∧ t.nanosecond < 1000000000

instance (t : Time) : Decidable t.wellFormed := by
  unfold Time.wellFormed; infer_instance

/-- Two readings lie in the same wall-clock second. -/
def Time.sameSecond (a b : Time) : Prop :=
  a.year = b.year ∧ a.month = b.month ∧ a.day = b.day ∧
  a.hour = b.hour ∧ a.minute = b.minute ∧ a.second = b.second

instance (a b : Time) : Decidable (a.sameSecond b) := by
  unfold Time.sameSecond; infer_instance

/-- The helper `appendInt(b, x, width)` of package `time` for `x ≥ 0`: the
two-digit fast path, else the decimal digits of `x` left-padded with zeros to
`width`. -/
def appendInt (x : Nat) (width : Nat) : List Char :=
  if width = 2 ∧ x < 100 then [Nat.digitChar (x / 10), Nat.digitChar (x % 10)]
  else
    List.replicate (width - (Nat.toDigits 10 x).length) '0' ++ Nat.toDigits 10 x

/-- Expansion of a layout.  The reference elements interpreted are `2006`
(year, width 4), `01` (month), `02` (day), `15` (hour), `04` (minute) and
`05` (second), each zero-padded to width 2; any other character is copied.
This agrees with `time.Format` on layouts built from these elements and
separators, such as the two layouts used by the program. -/
def formatLayout : List Char → Time → List Char
  | '2' :: '0' :: '0' :: '6' :: rest, t => appendInt t.year 4 ++ formatLayout rest t
  | '0' :: '1' :: rest, t => appendInt t.month 2 ++ formatLayout rest t
  | '0' :: '2' :: rest, t => appendInt t.day 2 ++ formatLayout rest t
  | '1' :: '5' :: rest, t => appendInt t.hour 2 ++ formatLayout rest t
  | '0' :: '4' :: rest, t => appendInt t.minute 2 ++ formatLayout rest t
  | '0' :: '5' :: rest, t => appendInt t.second 2 ++ formatLayout rest t
  | c :: rest, t => c :: formatLayout rest t
  | [], _ => []

/-- The call `t.Format(layout)`. -/
def Time.Format (t : Time) (layout : String) : String :=
  ⟨formatLayout layout.data t⟩

/-! ## Artifact naming (`backupDatabase`, lines 115-117) -/

/-- Line 115: `timestamp := time.Now().Format("20060102_150405")`. -/
def timestamp (now : Time) : String :=
  now.Format "20060102_150405"

/-- Line 116: `sqlFilename := fmt.Sprintf("%s_%s_%s.sql", db.DBNumber, db.DBName, timestamp)`. -/
def sqlFilename (db : DBInfo) (now : Time) : String :=
  Sprintf "%s_%s_%s.sql" [db.DBNumber, db.DBName, timestamp now]

/-- Line 117, inner call: `fmt.Sprintf("%s.gz", sqlFilename)`, the name of the
artifact inside the output directory. -/
def gzName (db : DBInfo) (now : Time) : String :=
  Sprintf "%s.gz" [sqlFilename db now]

/-- Line 117: `gzFilename := filepath.Join(backupPath, fmt.Sprintf("%s.gz", sqlFilename))`.
`filepath.Join` is the parameter `join`. -/
def gzFilename (join : String → String → String) (db : DBInfo) (backupPath : String)
    (now : Time) : String :=
  join backupPath (gzName db now)

/-! ## The timestamp as the specification words it -/

/-- A number written in decimal and left-padded with zeros to `width` digits. -/
def zeroPad (width : Nat) (n : Nat) : String :=
  ⟨List.replicate (width - (Nat.repr n).length) '0'⟩ ++ Nat.repr n

/-- The pattern `YYYYMMDD_HHMMSS` read off a wall-clock reading. -/
def specTimestamp (t : Time) : String :=
  zeroPad 4 t.year ++ zeroPad 2 t.month ++ zeroPad 2 t.day ++ "_" ++
    zeroPad 2 t.hour ++ zeroPad 2 t.minute ++ zeroPad 2 t.second

/-! ## Reading a decimal numeral back -/

/-- The value of a decimal digit character. -/
def digitVal (c : Char) : Nat := c.toNat - 48

/-- The number a list of decimal digits denotes, most significant digit first. -/
def decodeDigits (l : List Char) : Nat :=
  l.foldl (fun a c => 10 * a + digitVal c) 0

/-! ## Effects

Sequential code is embedded as the list of calls it makes to the outside
world, in program order.  Whether a call fails is decided by the caller of the
embedding (an oracle for the outside world), not by the embedding. -/

/-- The two subprocesses of a dump pipeline. -/
inductive Cmd where
  | mysqldump
  | gzip
deriving DecidableEq, Repr

/-- Where `log.SetOutput` points the logger. -/
inductive LogSink where
  | file (name : String)
  | stdout
deriving DecidableEq, Repr

/-- A call to the outside world. -/
inductive Effect where
  /-- The call `os.Open(name)`. -/
  | openFile (name : String)
  /-- The call `ioutil.ReadAll(file)`. -/
  | readAll
  /-- The call `os.OpenFile(name, O_APPEND|O_CREATE|O_WRONLY, 0666)`. -/
  | openLog (name : String)
  /-- The call `log.SetOutput`. -/
  | setLogOutput (sink : LogSink)
  /-- The call `os.MkdirAll(path, os.ModePerm)`. -/
  | mkdirAll (path : String)
  /-- The call `ioutil.ReadDir(path)`. -/
  | readDir (path : String)
  /-- The call `fmt.Println(line)`. -/
  | println (line : String)
  /-- The call `log.Printf`, with the expanded message. -/
  | logPrintf (line : String)
  /-- The call `log.Fatalf`, with the expanded message; it ends the process
  with status 1 and runs no deferred call. -/
  | logFatalf (line : String)
  /-- The call `os.Create(path)`. -/
  | create (path : String)
  /-- The call `Start()` on a command with the given arguments. -/
  | start (c : Cmd) (argv : List String)
  /-- The call `Wait()` on a command. -/
  | wait (c : Cmd)
  /-- The call `pipeWriter.Close()`. -/
  | closePipeWriter
  /-- The deferred call `pipeReader.Close()`. -/
  | closePipeReader
  /-- A deferred call `Close()` on an open file. -/
  | closeFile (name : String)
  /-- The statement `go func(db DBInfo) {...}(db)`. -/
  | spawn (db : DBInfo)
deriving DecidableEq, Repr

/-! ## `backupDatabase` (lines 113-158) -/

/-- The five places where `backupDatabase` tests an error. -/
inductive Checkpoint where
  | fileCreate
  | dumpStart
  | compressStart
  | dumpWait
  | compressWait
deriving DecidableEq, Repr

/-- The checkpoints in program order. -/
def allCheckpoints : List Checkpoint :=
  [.fileCreate, .dumpStart, .compressStart, .dumpWait, .compressWait]

/-- The answers of the outside world to one unit: for each checkpoint, `none`
when the call returns a nil error, else the text of the error. -/
abbrev Outcome := Checkpoint → Option String

/-- Line 119: the arguments of `exec.Command("mysqldump", ...)`. -/
def dumpArgv (db : DBInfo) : List String :=
  ["mysqldump", "-h", db.DBHost, "-u", db.DBUser, "-p" ++ db.DBPassword, db.DBName]

/-- The message logged when a checkpoint fails (lines 131, 138, 143, 148, 154). -/
def failureLine (db : DBInfo) (gz : String) (c : Checkpoint) (err : String) : String :=
  match c with
  | .fileCreate => Sprintf "Failed to create backup file %s: %v" [gz, err]
  | .dumpStart => Sprintf "Failed to start mysqldump for database %s: %v" [db.DBName, err]
  | .compressStart => Sprintf "Failed to start gzip for database %s: %v" [db.DBName, err]
  | .dumpWait => Sprintf "Failed to complete mysqldump for database %s: %v" [db.DBName, err]
  | .compressWait => Sprintf "Failed to complete gzip for database %s: %v" [db.DBName, err]

/-- The message logged on success (line 156). -/
def successLine (db : DBInfo) (gz : String) : String :=
  Sprintf "Successfully backed up and compressed database %s to %s" [db.DBName, gz]

/-- The function `backupDatabase(db, backupPath)`: the calls it makes, given
the reading of the clock and the outcome of each checkpoint.  The deferred
closes run, last registered first, at every `return`. -/
def backupDatabase (join : String → String → String) (db : DBInfo) (backupPath : String)
    (now : Time) (o : Outcome) : List Effect :=
  let gz := gzFilename join db backupPath now
  -- line 124: defer pipeReader.Close()
  let deferred₁ := [Effect.closePipeReader]
  -- line 129: os.Create(gzFilename)
  Effect.create gz ::
  match o .fileCreate with
  | some err => Effect.logPrintf (failureLine db gz .fileCreate err) :: deferred₁
  | none =>
    -- line 134: defer outfile.Close()
    let deferred₂ := Effect.closeFile gz :: deferred₁
    -- line 137: cmd.Start()
    Effect.start .mysqldump (dumpArgv db) ::
    match o .dumpStart with
    | some err => Effect.logPrintf (failureLine db gz .dumpStart err) :: deferred₂
    | none =>
      -- line 142: gzipCmd.Start()
      Effect.start .gzip ["gzip"] ::
      match o .compressStart with
      | some err => Effect.logPrintf (failureLine db gz .compressStart err) :: deferred₂
      | none =>
        -- line 147: cmd.Wait()
        Effect.wait .mysqldump ::
        match o .dumpWait with
        | some err => Effect.logPrintf (failureLine db gz .dumpWait err) :: deferred₂
        | none =>
          -- line 151: pipeWriter.Close(); line 153: gzipCmd.Wait()
          Effect.closePipeWriter :: Effect.wait .gzip ::
          match o .compressWait with
          | some err => Effect.logPrintf (failureLine db gz .compressWait err) :: deferred₂
          | none => Effect.logPrintf (successLine db gz) :: deferred₂

/-! ### Reading a trace of `backupDatabase` -/

/-- The checkpoint a call belongs to, if any. -/
def Effect.checkpoint : Effect → Option Checkpoint
  | .create _ => some .fileCreate
  | .start .mysqldump _ => some .dumpStart
  | .start .gzip _ => some .compressStart
  | .wait .mysqldump => some .dumpWait
  | .wait .gzip => some .compressWait
  | _ => none

/-- The checkpoints a trace went through, in order, with repetitions. -/
def attempts (tr : List Effect) : List Checkpoint :=
  tr.filterMap Effect.checkpoint

/-- The messages a trace logged with `log.Printf`, in order. -/
def logLines (tr : List Effect) : List String :=
  tr.filterMap fun e => match e with
    | .logPrintf l => some l
    | _ => none

/-- Whether a call ends the process. -/
def Effect.isFatal : Effect → Bool
  | .logFatalf _ => true
  | _ => false

/-- The position of a checkpoint in program order. -/
def Checkpoint.index : Checkpoint → Nat
  | .fileCreate => 0
  | .dumpStart => 1
  | .compressStart => 2
  | .dumpWait => 3
  | .compressWait => 4

/-- The first checkpoint, in program order, whose call fails. -/
def firstFailure (o : Outcome) : Option Checkpoint :=
  allCheckpoints.find? fun c => (o c).isSome

/-- The checkpoints from the first one through `c`. -/
def throughCheckpoint (c : Checkpoint) : List Checkpoint :=
  allCheckpoints.take (c.index + 1)

/-! ## Library: `strconv.Atoi` -/

/-- The call `strconv.Atoi(s)` on a 64-bit platform: an optional sign, then
one or more ASCII decimal digits, denoting a value that fits `int`.  The
result is the value, or the text of the error (whose quoting of `s` is
rendered without escapes). -/
def Atoi (s : String) : Except String Int :=
  let body := match s.data with
    | '+' :: r => r
    | '-' :: r => r
    | r => r
  if body = [] ∨ ¬ body.all Char.isDigit = true then
    .error ("strconv.Atoi: parsing \"" ++ s ++ "\": invalid syntax")
  else
    let n : Int := if s.data.head? = some '-' then -(decodeDigits body : Int) else decodeDigits body
    if n < -9223372036854775808 ∨ 9223372036854775807 < n then
      .error ("strconv.Atoi: parsing \"" ++ s ++ "\": value out of range")
    else .ok n

/-! ## `main` (lines 33-57) -/

/-- The command line as `flag.Parse` finds it: each flag given or omitted. -/
structure Flags where
  action : Option String
  concurrency : Option String
deriving DecidableEq, Repr

/-- What `main` does once the flags are read. -/
inductive MainResult where
  /-- The call `log.Fatalf` with the expanded message. -/
  | fatal (msg : String)
  /-- The call `startBackup(maxConcurrency)`. -/
  | startBackup (maxConcurrency : Int)
  /-- The call `listBackups()`. -/
  | listBackups
deriving DecidableEq, Repr

/-- The function `main`, from the flags to the call it ends with. -/
def main (f : Flags) : MainResult :=
  -- lines 35-36: the defaults of the two flags
  let action := f.action.getD ""
  let concurrency := f.concurrency.getD "3"
  if action = "" then
    .fatal "Please specify an action: \x27backup\x27 or \x27list\x27"
  else
    match Atoi concurrency with
    | .error err => .fatal (Sprintf "Invalid concurrency value: %v" [err])
    | .ok maxConcurrency =>
      if action = "backup" then .startBackup maxConcurrency
      else if action = "list" then .listBackups
      else .fatal (Sprintf "Invalid action: %s" [action])

/-- A decimal numeral in the sense of the command line: an optional sign and
at least one ASCII digit. -/
def isNumeral (s : String) : Bool :=
  match s.data with
  | '+' :: r => !r.isEmpty && r.all Char.isDigit
  | '-' :: r => !r.isEmpty && r.all Char.isDigit
  | r => !r.isEmpty && r.all Char.isDigit

/-! ## The outside world of the configuration loader -/

/-- The answers of the outside world to the sequential part of a run. -/
structure World where
  /-- The error of `os.Open("config.json")`, `none` when it is nil. -/
  openConfig : Option String
  /-- The bytes `ioutil.ReadAll` returns (its error is discarded by the program). -/
  configBytes : String
  /-- The call `json.Unmarshal(byteValue, &dbConfig)`: the decoded value or the
  text of the error. -/
  unmarshal : String → Except String DBConfig
  /-- The reading of the clock in `setupLogging`. -/
  today : Time
  /-- The error of opening the log file, `none` when it is nil. -/
  openLog : Option String
  /-- The error of `os.MkdirAll`, `none` when it is nil. -/
  mkdirAll : Option String
  /-- The call `ioutil.ReadDir(path)`: the names of the entries, in the order
  returned, or the text of the error. -/
  readDir : String → Except String (List String)

/-- The function `setupLogging(enableLogging)` (lines 59-70): its calls, and
whether it returns (`false`: the process ended in `log.Fatalf`). -/
def setupLogging (w : World) (enableLogging : Bool) : List Effect × Bool :=
  if enableLogging then
    let logFileName := w.today.Format "20060102" ++ ".log"
    match w.openLog with
    | some err =>
      ([.openLog logFileName, .logFatalf (Sprintf "Failed to open log file: %v" [err])], false)
    | none => ([.openLog logFileName, .setLogOutput (.file logFileName)], true)
  else ([.setLogOutput .stdout], true)

/-- Lines 73-93 of `startBackup`: everything before the fan-out.  The result is
the calls made and, when no fatal check fired, the configuration. -/
def startBackupSetup (w : World) : List Effect × Option DBConfig :=
  match w.openConfig with
  | some err =>
    ([.openFile "config.json", .logFatalf (Sprintf "Failed to open config file: %v" [err])],
      none)
  | none =>
    match w.unmarshal w.configBytes with
    | .error err =>
      ([.openFile "config.json", .readAll,
        .logFatalf (Sprintf "Failed to parse config file: %v" [err])], none)
    | .ok dbConfig =>
      match setupLogging w dbConfig.EnableLogging with
      | (logging, false) => ([.openFile "config.json", .readAll] ++ logging, none)
      | (logging, true) =>
        match w.mkdirAll with
        | some err =>
          ([.openFile "config.json", .readAll] ++ logging ++
            [.mkdirAll dbConfig.BackupTargetPath,
              .logFatalf (Sprintf "Failed to create backup target path: %v" [err])], none)
        | none =>
          ([.openFile "config.json", .readAll] ++ logging ++
            [.mkdirAll dbConfig.BackupTargetPath], some dbConfig)

/-! ## `listBackups` (lines 160-192) -/

/-- The function `listBackups()`: the calls it makes.  A trace that ends in
`logFatalf` is a run ended by `log.Fatalf`; otherwise the function returned and
the deferred `file.Close()` ran. -/
def listBackups (w : World) : List Effect :=
  match w.openConfig with
  | some err =>
    [.openFile "config.json", .logFatalf (Sprintf "Failed to open config file: %v" [err])]
  | none =>
    match w.unmarshal w.configBytes with
    | .error err =>
      [.openFile "config.json", .readAll,
        .logFatalf (Sprintf "Failed to parse config file: %v" [err])]
    | .ok dbConfig =>
      match setupLogging w dbConfig.EnableLogging with
      | (logging, false) => [.openFile "config.json", .readAll] ++ logging
      | (logging, true) =>
        match w.readDir dbConfig.BackupTargetPath with
        | .error err =>
          [.openFile "config.json", .readAll] ++ logging ++
            [.readDir dbConfig.BackupTargetPath,
              .logFatalf (Sprintf "Failed to read backup target path: %v" [err])]
        | .ok files =>
          if files.length = 0 then
            [.openFile "config.json", .readAll] ++ logging ++
              [.readDir dbConfig.BackupTargetPath, .println "No backup files found",
                .closeFile "config.json"]
          else
            [.openFile "config.json", .readAll] ++ logging ++
              [.readDir dbConfig.BackupTargetPath, .println "Backed-up files:"] ++
              files.map Effect.println ++ [.closeFile "config.json"]

/-- The lines a trace wrote with `fmt.Println`, in order. -/
def stdoutLines (tr : List Effect) : List String :=
  tr.filterMap fun e => match e with
    | .println l => some l
    | _ => none

/-- Whether a call is one of those a run must not reach before the
configuration is parsed: creating the output directory, redirecting the log
sink, spawning a unit, starting or waiting on a subprocess, creating an
artifact, reading the output directory. -/
def Effect.isWork : Effect → Bool
  | .mkdirAll _ => true
  | .openLog _ => true
  | .setLogOutput _ => true
  | .spawn _ => true
  | .start _ _ => true
  | .wait _ => true
  | .create _ => true
  | .readDir _ => true
  | _ => false

/-! ## The fan-out of `startBackup` (lines 95-111)

The goroutines are interleaved one step at a time.  A step of the main
goroutine is one statement of lines 97-110; a step of a unit is one of the
four statements of the goroutine body: the send on `sem`, the call of
`backupDatabase` (taken whole: the unit is inside it from the send until this
step), the receive from `sem`, the deferred `wg.Done()`. -/

/-- A goroutine: the main one, or the unit spawned for `DBLists[i]`. -/
inductive Thread where
  | main
  | unit (i : Nat)
deriving DecidableEq, Repr

/-- Where the main goroutine stands. -/
inductive MainPc where
  /-- The process ended in `log.Fatalf` before the fan-out. -/
  | exited
  /-- Before line 97, `sem := make(chan struct{}, maxConcurrency)`. -/
  | makeSem
  /-- At the head of the loop of line 99, `i` targets handled. -/
  | loop (i : Nat)
  /-- After `wg.Add(1)` (line 100), before the `go` statement for `DBLists[i]`. -/
  | go (i : Nat)
  /-- At `wg.Wait()` (line 109). -/
  | wait
  /-- Before `fmt.Println` (line 110). -/
  | println
  /-- After the return of `startBackup`. -/
  | returned
  /-- The process ended in a run-time panic. -/
  | panicked
deriving DecidableEq, Repr

/-- Whether the process is still running inside `startBackup`. -/
def MainPc.alive : MainPc → Bool
  | .exited => false
  | .returned => false
  | .panicked => false
  | _ => true

/-- Where a unit stands. -/
inductive UnitPc where
  /-- Before or blocked in `sem <- struct{}{}` (line 103): waiting for a permit. -/
  | acquire
  /-- Holding a permit, inside `backupDatabase` (line 104). -/
  | backup
  /-- After `backupDatabase` returned, before `<-sem` (line 105). -/
  | release
  /-- After `<-sem`, before the deferred `wg.Done()` (line 102). -/
  | wgDone
  /-- The goroutine has ended. -/
  | finished
deriving DecidableEq, Repr

/-- The state of a run of `startBackup`. -/
structure State where
  /-- The variable `dbConfig`. -/
  dbConfig : DBConfig
  pc : MainPc
  /-- The units spawned so far, in spawn order: entry `i` is the unit of `DBLists[i]`. -/
  units : List UnitPc
  /-- The number of elements in the buffer of the channel `sem`. -/
  sem : Nat
  /-- The counter of the wait group `wg`. -/
  wg : Nat
  /-- The calls made so far, each with the goroutine that made it. -/
  trace : List (Thread × Effect)
deriving DecidableEq, Repr

/-- What a run of the fan-out depends on besides the configuration. -/
structure Env where
  /-- The library routine `filepath.Join`. -/
  join : String → String → String
  /-- The argument of `startBackup`. -/
  maxConcurrency : Int
  /-- The reading of the clock in the unit of `DBLists[i]`. -/
  clock : Nat → Time
  /-- The outcomes of the checkpoints in the unit of `DBLists[i]`. -/
  outcome : Nat → Outcome

/-- The state in which the fan-out starts: the sequential part has run. -/
def startBackupInit (w : World) : State :=
  match startBackupSetup w with
  | (tr, none) =>
    { dbConfig := ⟨"", false, []⟩, pc := .exited, units := [], sem := 0, wg := 0,
      trace := tr.map fun e => (Thread.main, e) }
  | (tr, some dbConfig) =>
    { dbConfig := dbConfig, pc := .makeSem, units := [], sem := 0, wg := 0,
      trace := tr.map fun e => (Thread.main, e) }

/-- One step of the main goroutine. -/
def stepMain (env : Env) (s : State) : Option State :=
  match s.pc with
  | .makeSem =>
    -- line 97: `make` panics on a negative size
    if env.maxConcurrency < 0 then some { s with pc := .panicked }
    else some { s with pc := .loop 0 }
  | .loop i =>
    -- line 99-100: next target and `wg.Add(1)`, or the end of the range
    if i < s.dbConfig.DBLists.length then some { s with wg := s.wg + 1, pc := .go i }
    else some { s with pc := .wait }
  | .go i =>
    -- line 101: the `go` statement
    match s.dbConfig.DBLists[i]? with
    | some db =>
      some { s with units := s.units ++ [.acquire],
                    trace := s.trace ++ [(.main, .spawn db)], pc := .loop (i + 1) }
    | none => none
  | .wait =>
    -- line 109: `wg.Wait()` blocks until the counter is zero
    if s.wg = 0 then some { s with pc := .println } else none
  | .println =>
    -- line 110, then the return with the deferred `file.Close()` of line 78
    some { s with trace := s.trace ++ [(.main, .println "All database backups completed"),
                                       (.main, .closeFile "config.json")],
                  pc := .returned }
  | _ => none

/-- One step of the unit of `DBLists[i]`. -/
def stepUnit (env : Env) (s : State) (i : Nat) : Option State :=
  if s.pc.alive then
    match s.units[i]? with
    | some .acquire =>
      -- line 103: the send blocks while the buffer is full
      if (s.sem : Int) < env.maxConcurrency then
        some { s with sem := s.sem + 1, units := s.units.set i .backup }
      else none
    | some .backup =>
      -- line 104
      match s.dbConfig.DBLists[i]? with
      | some db =>
        some { s with
          trace := s.trace ++
            (backupDatabase env.join db s.dbConfig.BackupTargetPath (env.clock i)
              (env.outcome i)).map fun e => (Thread.unit i, e),
          units := s.units.set i .release }
      | none => none
    | some .release =>
      -- line 105: the receive blocks while the buffer is empty
      if 0 < s.sem then some { s with sem := s.sem - 1, units := s.units.set i .wgDone }
      else none
    | some .wgDone =>
      -- line 102: `wg.Done()` panics on a negative counter
      if 0 < s.wg then some { s with wg := s.wg - 1, units := s.units.set i .finished }
      else some { s with pc := .panicked }
    | _ => none
  else none

/-- One step of a goroutine; `none` when it is blocked or has ended. -/
def step (env : Env) (s : State) : Thread → Option State
  | .main => stepMain env s
  | .unit i => stepUnit env s i

/-- A run along a schedule; `none` when the schedule asks a goroutine to step
that cannot. -/
def run (env : Env) (s : State) : List Thread → Option State
  | [] => some s
  | t :: ts => (step env s t).bind fun s₁ => run env s₁ ts

/-- The number of units inside `backupDatabase`. -/
def State.inBackup (s : State) : Nat :=
  s.units.countP fun u => u = .backup

/-- The number of units holding a permit. -/
def State.holding (s : State) : Nat :=
  s.units.countP fun u => u = .backup ∨ u = .release

/-- The number of units that have not ended. -/
def State.unfinished (s : State) : Nat :=
  s.units.countP fun u => u ≠ .finished

/-- The lines the run wrote with `fmt.Println`, in order. -/
def State.printed (s : State) : List String :=
  stdoutLines (s.trace.map Prod.snd)

/-- A line on standard output: one written by `fmt.Println`, or a message of
the logger (which the logger prefixes with the date and time) written while
the logger points at standard output. -/
inductive OutLine where
  | printed (line : String)
  | logged (msg : String)
deriving DecidableEq, Repr

/-- What a trace puts on standard output, starting with the logger at `sink`
(`none`: the initial sink, standard error).  `log.SetOutput` moves the logger;
a log message is on standard output when the logger points there. -/
def stdoutFrom : Option LogSink → List Effect → List OutLine
  | _, [] => []
  | sink, e :: r =>
    match e with
    | .setLogOutput k => stdoutFrom (some k) r
    | .println l => .printed l :: stdoutFrom sink r
    | .logPrintf m =>
      if sink = some .stdout then .logged m :: stdoutFrom sink r else stdoutFrom sink r
    | .logFatalf m =>
      if sink = some .stdout then .logged m :: stdoutFrom sink r else stdoutFrom sink r
    | _ => stdoutFrom sink r

/-- Where the logger points after a trace. -/
def sinkAfter : Option LogSink → List Effect → Option LogSink
  | sink, [] => sink
  | sink, e :: r =>
    match e with
    | .setLogOutput k => sinkAfter (some k) r
    | _ => sinkAfter sink r

/-- The content of standard output. -/
def State.stdout (s : State) : List OutLine :=
  stdoutFrom none (s.trace.map Prod.snd)

/-- Where the logger points. -/
def State.sink (s : State) : Option LogSink :=
  sinkAfter none (s.trace.map Prod.snd)

/-- The calls made by one goroutine. -/
def State.traceOf (s : State) (t : Thread) : List Effect :=
  (s.trace.filter fun p => p.1 = t).map Prod.snd

/-- The number of `wg.Add(1)` not yet matched by a `go` statement. -/
def MainPc.pending : MainPc → Nat
  | .go _ => 1
  | _ => 0

/-- Whether `wg.Wait()` has returned. -/
def MainPc.joined : MainPc → Bool
  | .println => true
  | .returned => true
  | _ => false

/-- The number `k` of units spawned, as the place of the main goroutine
determines it for `n` targets. -/
def MainPc.spawned (n : Nat) : MainPc → Nat → Prop
  | .exited, k => k = 0
  | .makeSem, k => k = 0
  | .loop i, k => k = i ∧ i ≤ n
  | .go i, k => k = i ∧ i < n
  | .wait, k => k = n
  | .println, k => k = n
  | .returned, k => k = n
  | .panicked, k => k ≤ n

/-- The invariant of the fan-out for `n` targets and capacity `c`: the buffer
of `sem` holds one element per unit between its send and its receive and
never more than the capacity; the wait-group counter is the number of units
that have not ended, plus one between `wg.Add(1)` and the `go` statement; the
units spawned are those the place in the loop accounts for; the counter is
zero once `wg.Wait()` has returned; and with a capacity that is not negative
the process has neither exited nor panicked. -/
def Inv (n : Nat) (c : Int) (s : State) : Prop :=
  s.holding = s.sem ∧ (s.sem : Int) ≤ max c 0 ∧
  s.wg = s.unfinished + s.pc.pending ∧
  s.pc.spawned n s.units.length ∧
  (s.pc.joined = true → s.wg = 0) ∧
  (0 ≤ c → s.pc ≠ .exited ∧ s.pc ≠ .panicked)

/-- The line `startBackup` prints before it returns (line 110). -/
def completionLine : String := "All database backups completed"

/-! ## Library: `filepath.Join` on a Unix system -/

/-- The components of a path between separators. -/
def splitSep : List Char → List (List Char)
  | [] => [[]]
  | c :: r =>
    if c = '/' then [] :: splitSep r
    else
      match splitSep r with
      | h :: t => (c :: h) :: t
      | [] => [[c]]

/-- Components written out with a separator between neighbours. -/
def joinSep : List (List Char) → List Char
  | [] => []
  | [x] => x
  | x :: y :: r => x ++ '/' :: joinSep (y :: r)

/-- One component read by `Clean`: an empty or `.` component is dropped; `..`
removes the component before it, is dropped at the root, and is kept at the
start of a relative path; any other component is kept.  The components kept
so far are held last first. -/
def cleanStep (rooted : Bool) (st : List (List Char)) (comp : List Char) : List (List Char) :=
  if comp = [] ∨ comp = ['.'] then st
  else if comp = ['.', '.'] then
    match st with
    | [] => if rooted then [] else [comp]
    | top :: rest => if rooted = false ∧ top = ['.', '.'] then comp :: st else rest
  else comp :: st

/-- The call `filepath.Clean(path)`: the shortest path equivalent to `path` by
purely lexical processing. -/
def Clean (p : List Char) : List Char :=
  if p = [] then ['.']
  else
    let rooted : Bool := p.head? = some '/'
    let st := (splitSep p).foldl (cleanStep rooted) []
    let r := (if rooted then ['/'] else []) ++ joinSep st.reverse
    if r = [] then ['.'] else r

/-- The call `filepath.Join(dir, name)`: the non-empty elements joined with a
separator, then cleaned; the empty string when both are empty. -/
def Join (dir name : String) : String :=
  if dir ≠ "" then ⟨Clean (dir.data ++ '/' :: name.data)⟩
  else if name ≠ "" then ⟨Clean name.data⟩
  else ""

/-! ## A concrete run, to instantiate the theorems -/

/-- A configuration with two targets. -/
def sampleConfig : DBConfig :=
  ⟨"/backups", false,
    [⟨"01", "orders", "root", "secret", "db1", ""⟩, ⟨"02", "users", "root", "secret", "db2", ""⟩]⟩

/-- An outside world in which `config.json` decodes to `sampleConfig`, every
call of the sequential part succeeds and the output directory holds `a.gz`
and `b.gz`. -/
def sampleWorld : World where
  openConfig := none
  configBytes := "{...}"
  unmarshal := fun _ => .ok sampleConfig
  today := ⟨2024, 3, 5, 12, 0, 0, 0⟩
  openLog := none
  mkdirAll := none
  readDir := fun _ => .ok ["a.gz", "b.gz"]

/-- A fan-out environment with capacity 1, the path join of a Unix system, and
the given outcomes of the units. -/
def sampleEnv (outcome : Nat → Outcome) : Env where
  join := Join
  maxConcurrency := 1
  clock := fun _ => ⟨2024, 3, 5, 12, 0, 0, 0⟩
  outcome := outcome

/-- The outcomes in which every checkpoint of every unit succeeds. -/
def allSucceed : Nat → Outcome := fun _ _ => none

/-- The outcomes in which the dump of every unit exits non-zero. -/
def allDumpsFail : Nat → Outcome := fun _ c =>
  match c with
  | .dumpWait => some "exit status 2"
  | _ => none

/-- The start of the sample run: the channel is made, both units are spawned,
and unit 0 takes the permit. -/
def sampleSpawnSchedule : List Thread :=
  [.main, .main, .main, .main, .main, .unit 0]

/-- A complete schedule of the sample run: both units are spawned, unit 0 runs
to its end, then unit 1, then the main goroutine passes `wg.Wait()`, prints
and returns. -/
def sampleSchedule : List Thread :=
  [.main, .main, .main, .main, .main, .main,
    .unit 0, .unit 0, .unit 0, .unit 0, .unit 1, .unit 1, .unit 1, .unit 1,
    .main, .main]

/-- What `fmt.Println` has written, by the place of the main goroutine: nothing
until `startBackup` has returned, the completion line after. -/
def OutInv (s : State) : Prop :=
  s.printed = if s.pc = .returned then [completionLine] else []

/-- What standard output holds: when the configuration turns logging to a file
on, the logger points at a file and standard output is what `fmt.Println`
wrote; and once `startBackup` has returned, the last line on standard output
is the completion line. -/
def LogInv (cfg : DBConfig) (s : State) : Prop :=
  (cfg.EnableLogging = true →
    (∃ n, s.sink = some (.file n)) ∧ s.stdout = s.printed.map OutLine.printed) ∧
  (s.pc = .returned → s.stdout.getLast? = some (.printed completionLine))

/-- Whether a unit has come back from `backupDatabase`. -/
def UnitPc.ran : UnitPc → Bool
  | .release => true
  | .wgDone => true
  | .finished => true
  | _ => false

/-- Whether the unit of `DBLists[i]` has been spawned and has come back from
`backupDatabase`. -/
def ranAt (units : List UnitPc) (i : Nat) : Bool :=
  match units[i]? with
  | some u => u.ran
  | none => false

/-- The calls of the unit of `DBLists[i]` once `backupDatabase` has returned:
they depend on the target, the clock and the outcomes of that unit only. -/
def unitResult (env : Env) (cfg : DBConfig) (i : Nat) : List Effect :=
  match cfg.DBLists[i]? with
  | some db =>
    backupDatabase env.join db cfg.BackupTargetPath (env.clock i) (env.outcome i)
  | none => []

/-- What the trace holds for each unit: nothing until `backupDatabase` has
returned, the calls of `backupDatabase` after. -/
def TraceInv (env : Env) (s : State) : Prop :=
  ∀ i, s.traceOf (.unit i) = if ranAt s.units i then unitResult env s.dbConfig i else []

/-- Two states agree on everything but the trace: the configuration, the
places of all goroutines, the channel and the wait group. -/
def SameControl (s s' : State) : Prop :=
  s'.dbConfig = s.dbConfig ∧ s'.pc = s.pc ∧ s'.units = s.units ∧ s'.sem = s.sem ∧ s'.wg = s.wg

/-! ### The pipeline as the specification lists it -/

/-- The six steps of a dump pipeline in order: create the destination file,
start the dump, start the compressor, wait for the dump, half-close the
intermediate stream, wait for the compressor. -/
def pipelineSteps (db : DBInfo) (gz : String) : List Effect :=
  [.create gz, .start .mysqldump (dumpArgv db), .start .gzip ["gzip"], .wait .mysqldump,
    .closePipeWriter, .wait .gzip]

/-- The steps a unit has taken when it reaches the verdict of checkpoint `c`:
the half-close and the wait on the compressor come only after a dump that
finished well. -/
def stepsThrough (db : DBInfo) (gz : String) : Checkpoint → List Effect
  | .fileCreate => (pipelineSteps db gz).take 1
  | .dumpStart => (pipelineSteps db gz).take 2
  | .compressStart => (pipelineSteps db gz).take 3
  | .dumpWait => (pipelineSteps db gz).take 4
  | .compressWait => pipelineSteps db gz

/-- The resources a unit releases when it returns after checkpoint `c`: the
read end of the intermediate stream, and before it the destination file once
that was created. -/
def releasesAfter (gz : String) : Checkpoint → List Effect
  | .fileCreate => [.closePipeReader]
  | _ => [.closeFile gz, .closePipeReader]

end GoBackup

namespace GoBackup

/-! # Theorems -/

/-! ## Strings -/

theorem sprintf_sql (a b c : String) :
    Sprintf "%s_%s_%s.sql" [a, b, c] = a ++ "_" ++ b ++ "_" ++ c ++ ".sql" := by
  apply String.ext
  simp [Sprintf, sprintfAux, String.data_append]

theorem sprintf_gz (a : String) : Sprintf "%s.gz" [a] = a ++ ".gz" := by
  apply String.ext
  simp [Sprintf, sprintfAux, String.data_append]

theorem appendInt_two_small : ∀ x, x < 100 →
    [Nat.digitChar (x / 10), Nat.digitChar (x % 10)] =
      List.replicate (2 - (Nat.toDigits 10 x).length) '0' ++ Nat.toDigits 10 x := by
  decide

theorem appendInt_eq_zeroPad (x width : Nat) : appendInt x width = (zeroPad width x).data := by
  unfold appendInt zeroPad
  by_cases h : width = 2 ∧ x < 100
  · obtain ⟨hw, hx⟩ := h
    subst hw
    simp only [hx, and_self, if_true, String.data_append, Nat.repr, String.length]
    simpa [List.asString] using appendInt_two_small x hx
  · simp [h, String.data_append, Nat.repr, String.length, List.asString]

theorem timestamp_data (t : Time) :
    (timestamp t).data =
      appendInt t.year 4 ++ (appendInt t.month 2 ++ (appendInt t.day 2 ++
        '_' :: (appendInt t.hour 2 ++ (appendInt t.minute 2 ++ appendInt t.second 2)))) := by
  simp [timestamp, Time.Format, formatLayout]

theorem timestamp_eq_spec (t : Time) : timestamp t = specTimestamp t := by
  apply String.ext
  rw [timestamp_data]
  simp [specTimestamp, String.data_append, appendInt_eq_zeroPad]

/-! ## Decimal numerals -/

theorem digitChar_ne_underscore : ∀ d, d < 10 → Nat.digitChar d ≠ '_' := by
  decide

theorem digitVal_digitChar : ∀ d, d < 10 → digitVal (Nat.digitChar d) = d := by
  decide

theorem toDigitsCore_append (fuel : Nat) : ∀ (n : Nat) (ds : List Char),
    Nat.toDigitsCore 10 fuel n ds = Nat.toDigitsCore 10 fuel n [] ++ ds := by
  induction fuel with
  | zero => intro n ds; simp [Nat.toDigitsCore]
  | succ f ih =>
    intro n ds
    simp only [Nat.toDigitsCore]
    split
    · simp
    · rw [ih (n / 10) (Nat.digitChar (n % 10) :: ds), ih (n / 10) [Nat.digitChar (n % 10)]]
      simp

theorem decodeDigits_snoc (l : List Char) (c : Char) :
    decodeDigits (l ++ [c]) = 10 * decodeDigits l + digitVal c := by
  simp [decodeDigits, List.foldl_append]

theorem decodeDigits_toDigitsCore (fuel : Nat) : ∀ n, n < fuel →
    decodeDigits (Nat.toDigitsCore 10 fuel n []) = n := by
  induction fuel with
  | zero => intro n h; omega
  | succ f ih =>
    intro n h
    simp only [Nat.toDigitsCore]
    split
    · rename_i h0
      have : n % 10 = n := by omega
      simp [decodeDigits, this, digitVal_digitChar n (by omega)]
    · rename_i h0
      rw [toDigitsCore_append, decodeDigits_snoc, ih (n / 10) (by omega),
        digitVal_digitChar _ (Nat.mod_lt _ (by decide))]
      omega

theorem decodeDigits_toDigits (n : Nat) : decodeDigits (Nat.toDigits 10 n) = n := by
  unfold Nat.toDigits
  exact decodeDigits_toDigitsCore (n + 1) n (Nat.lt_succ_self n)

theorem decodeDigits_zeros (k : Nat) (l : List Char) :
    decodeDigits (List.replicate k '0' ++ l) = decodeDigits l := by
  induction k with
  | zero => simp
  | succ k ih =>
    have h0 : digitVal '0' = 0 := by decide
    simp only [decodeDigits, List.replicate_succ, List.cons_append, List.foldl_cons, h0] at ih ⊢
    simpa using ih

theorem toDigitsCore_no_underscore (fuel : Nat) : ∀ (n : Nat) (ds : List Char),
    '_' ∉ ds → '_' ∉ Nat.toDigitsCore 10 fuel n ds := by
  induction fuel with
  | zero => intro n ds h; simpa [Nat.toDigitsCore] using h
  | succ f ih =>
    intro n ds h
    have hc : '_' ∉ Nat.digitChar (n % 10) :: ds := by
      simp only [List.mem_cons, not_or]
      exact ⟨fun e => digitChar_ne_underscore _ (Nat.mod_lt _ (by decide)) e.symm, h⟩
    simp only [Nat.toDigitsCore]
    split
    · exact hc
    · exact ih _ _ hc

theorem appendInt_year_decode (y : Nat) : decodeDigits (appendInt y 4) = y := by
  unfold appendInt
  simp [decodeDigits_zeros, decodeDigits_toDigits]

theorem appendInt_year_no_underscore (y : Nat) : '_' ∉ appendInt y 4 := by
  unfold appendInt
  simp only [show ¬ (4 = 2 ∧ y < 100) by omega, if_false, List.mem_append, not_or]
  refine ⟨?_, toDigitsCore_no_underscore _ _ _ (by simp)⟩
  intro h
  have := List.eq_of_mem_replicate h
  exact absurd this (by decide)

theorem appendInt_two_length (x : Nat) (h : x < 100) : (appendInt x 2).length = 2 := by
  simp [appendInt, h]

theorem digitChar_inj : ∀ a, a < 10 → ∀ b, b < 10 →
    Nat.digitChar a = Nat.digitChar b → a = b := by
  decide

theorem appendInt_two_inj (x y : Nat) (hx : x < 100) (hy : y < 100)
    (h : appendInt x 2 = appendInt y 2) : x = y := by
  simp only [appendInt, hx, hy, and_self, if_true, List.cons.injEq, and_true] at h
  have h1 := digitChar_inj (x / 10) (by omega) (y / 10) (by omega) h.1
  have h2 := digitChar_inj (x % 10) (by omega) (y % 10) (by omega) h.2
  omega

/-! ## Splitting at a separator -/

theorem split_first (c : Char) : ∀ (a b r s : List Char), c ∉ a → c ∉ b →
    a ++ c :: r = b ++ c :: s → a = b ∧ r = s := by
  intro a
  induction a with
  | nil =>
    intro b r s _ hb h
    cases b with
    | nil => simpa using h
    | cons x b =>
      simp only [List.nil_append, List.cons_append, List.cons.injEq] at h
      exact absurd (by simp [h.1]) hb
  | cons x a ih =>
    intro b r s ha hb h
    cases b with
    | nil =>
      simp only [List.nil_append, List.cons_append, List.cons.injEq] at h
      exact absurd (by simp [h.1]) ha
    | cons y b =>
      simp only [List.cons_append, List.cons.injEq] at h
      have ha2 : c ∉ a := fun m => ha (List.mem_cons_of_mem _ m)
      have hb2 : c ∉ b := fun m => hb (List.mem_cons_of_mem _ m)
      obtain ⟨e1, e2⟩ := ih b r s ha2 hb2 h.2
      exact ⟨by rw [h.1, e1], e2⟩

theorem split_last (c : Char) (a b r s : List Char) (hr : c ∉ r) (hs : c ∉ s)
    (h : a ++ c :: r = b ++ c :: s) : a = b ∧ r = s := by
  have h2 := congrArg List.reverse h
  simp only [List.reverse_append, List.reverse_cons, List.append_assoc,
    List.singleton_append] at h2
  obtain ⟨e1, e2⟩ := split_first c r.reverse s.reverse a.reverse b.reverse
    (by simpa using hr) (by simpa using hs) h2
  exact ⟨List.reverse_injective e2, List.reverse_injective e1⟩

/-! ## The artifact name -/

theorem gzName_eq (db : DBInfo) (t : Time) :
    gzName db t = db.DBNumber ++ "_" ++ db.DBName ++ "_" ++ timestamp t ++ ".sql" ++ ".gz" := by
  rw [gzName, sqlFilename, sprintf_sql, sprintf_gz]

theorem gzName_data (db : DBInfo) (t : Time) :
    (gzName db t).data =
      (db.DBNumber.data ++ '_' :: db.DBName.data) ++ '_' :: appendInt t.year 4 ++
        ((appendInt t.month 2 ++ (appendInt t.day 2 ++
          '_' :: (appendInt t.hour 2 ++ (appendInt t.minute 2 ++ appendInt t.second 2)))) ++
          ".sql.gz".data) := by
  rw [gzName_eq]
  simp [String.data_append, timestamp_data]

theorem clock_fields_inj (t1 t2 : Time) (w1 : t1.wellFormed) (w2 : t2.wellFormed)
    (h : appendInt t1.month 2 ++ (appendInt t1.day 2 ++
          '_' :: (appendInt t1.hour 2 ++ (appendInt t1.minute 2 ++ appendInt t1.second 2))) =
        appendInt t2.month 2 ++ (appendInt t2.day 2 ++
          '_' :: (appendInt t2.hour 2 ++ (appendInt t2.minute 2 ++ appendInt t2.second 2)))) :
    t1.month = t2.month ∧ t1.day = t2.day ∧ t1.hour = t2.hour ∧
      t1.minute = t2.minute ∧ t1.second = t2.second := by
  obtain ⟨_, a2, _, a4, a5, a6, a7, _⟩ := w1
  obtain ⟨_, b2, _, b4, b5, b6, b7, _⟩ := w2
  have len (x y : Nat) (hx : x < 100) (hy : y < 100) :
      (appendInt x 2).length = (appendInt y 2).length := by
    rw [appendInt_two_length x hx, appendInt_two_length y hy]
  obtain ⟨e1, h⟩ := List.append_inj h (len _ _ (by omega) (by omega))
  obtain ⟨e2, h⟩ := List.append_inj h (len _ _ (by omega) (by omega))
  simp only [List.cons.injEq, true_and] at h
  obtain ⟨e3, h⟩ := List.append_inj h (len _ _ (by omega) (by omega))
  obtain ⟨e4, e5⟩ := List.append_inj h (len _ _ (by omega) (by omega))
  exact ⟨appendInt_two_inj _ _ (by omega) (by omega) e1,
    appendInt_two_inj _ _ (by omega) (by omega) e2,
    appendInt_two_inj _ _ (by omega) (by omega) e3,
    appendInt_two_inj _ _ (by omega) (by omega) e4,
    appendInt_two_inj _ _ (by omega) (by omega) e5⟩

theorem clock_fields_length (t : Time) (w : t.wellFormed) :
    (appendInt t.month 2 ++ (appendInt t.day 2 ++
      '_' :: (appendInt t.hour 2 ++ (appendInt t.minute 2 ++ appendInt t.second 2)))).length
      = 11 := by
  obtain ⟨_, a2, _, a4, a5, a6, a7, _⟩ := w
  simp [appendInt_two_length _ (show t.month < 100 by omega),
    appendInt_two_length _ (show t.day < 100 by omega),
    appendInt_two_length _ (show t.hour < 100 by omega),
    appendInt_two_length _ (show t.minute < 100 by omega),
    appendInt_two_length _ (show t.second < 100 by omega)]

theorem gzName_parts (db1 db2 : DBInfo) (t1 t2 : Time)
    (w1 : t1.wellFormed) (w2 : t2.wellFormed) (h : gzName db1 t1 = gzName db2 t2) :
    db1.DBNumber.data ++ '_' :: db1.DBName.data = db2.DBNumber.data ++ '_' :: db2.DBName.data ∧
      t1.sameSecond t2 := by
  have hd := congrArg String.data h
  rw [gzName_data, gzName_data] at hd
  obtain ⟨hA, hB⟩ := List.append_inj' hd (by
    simp only [List.length_append, clock_fields_length t1 w1, clock_fields_length t2 w2])
  have hT := List.append_cancel_right hB
  obtain ⟨hIN, hY⟩ := split_last '_' _ _ _ _ (appendInt_year_no_underscore _)
    (appendInt_year_no_underscore _) hA
  have hy : t1.year = t2.year := by
    have := congrArg decodeDigits hY
    simpa [appendInt_year_decode] using this
  exact ⟨hIN, hy, clock_fields_inj t1 t2 w1 w2 hT⟩

/-! ## Claims about artifact naming -/

/-- C3: the destination path built by `backupDatabase` is the output directory
joined with `identifier_name_timestamp.sql.gz`, the timestamp being the capture
instant written as `YYYYMMDD_HHMMSS`; identifier `01`, name `orders`, captured
at 2024-03-05 12:00:00, gives the artifact name `01_orders_20240305_120000.sql.gz`. -/
theorem C3_destination_path (join : String → String → String) (db : DBInfo)
    (backupPath : String) (now : Time) :
    gzFilename join db backupPath now =
        join backupPath
          (db.DBNumber ++ "_" ++ db.DBName ++ "_" ++ specTimestamp now ++ ".sql.gz") ∧
      ∀ (user password host remark : String) (ns : Nat),
        gzFilename join ⟨"01", "orders", user, password, host, remark⟩ backupPath
            ⟨2024, 3, 5, 12, 0, 0, ns⟩ =
          join backupPath "01_orders_20240305_120000.sql.gz" := by
  constructor
  · rw [gzFilename, gzName_eq, timestamp_eq_spec]
    congr 1
    apply String.ext
    simp [String.data_append]
  · intro user password host remark ns
    rw [gzFilename, gzName_eq]
    congr 1
    apply String.ext
    simp only [String.data_append, timestamp_data]
    decide

/-- When neither identifier contains an underscore, or neither name does, two
well-formed capture instants and two targets that get the same artifact name
have the same identifier, the same name, and instants in the same wall-clock
second. -/
theorem gzName_injective (db1 db2 : DBInfo) (t1 t2 : Time)
    (w1 : t1.wellFormed) (w2 : t2.wellFormed)
    (hsep : ('_' ∉ db1.DBNumber.data ∧ '_' ∉ db2.DBNumber.data) ∨
      ('_' ∉ db1.DBName.data ∧ '_' ∉ db2.DBName.data))
    (h : gzName db1 t1 = gzName db2 t2) :
    db1.DBNumber = db2.DBNumber ∧ db1.DBName = db2.DBName ∧ t1.sameSecond t2 := by
  obtain ⟨hIN, hsame⟩ := gzName_parts db1 db2 t1 t2 w1 w2 h
  rcases hsep with ⟨h1, h2⟩ | ⟨h1, h2⟩
  · obtain ⟨e1, e2⟩ := split_first '_' _ _ _ _ h1 h2 hIN
    exact ⟨String.ext e1, String.ext e2, hsame⟩
  · obtain ⟨e1, e2⟩ := split_last '_' _ _ _ _ h1 h2 hIN
    exact ⟨String.ext e1, String.ext e2, hsame⟩

/-! ## `backupDatabase` -/

theorem failureLine_ne_successLine (db : DBInfo) (gz : String) (c : Checkpoint) (err : String) :
    failureLine db gz c err ≠ successLine db gz := by
  intro h
  have h2 := congrArg (fun s => s.data.head?) h
  cases c <;> simp [failureLine, successLine, Sprintf, sprintfAux] at h2

theorem failureLine_text (db : DBInfo) (gz err : String) :
    failureLine db gz .fileCreate err = "Failed to create backup file " ++ gz ++ ": " ++ err ∧
      failureLine db gz .dumpStart err =
        "Failed to start mysqldump for database " ++ db.DBName ++ ": " ++ err ∧
      failureLine db gz .compressStart err =
        "Failed to start gzip for database " ++ db.DBName ++ ": " ++ err ∧
      failureLine db gz .dumpWait err =
        "Failed to complete mysqldump for database " ++ db.DBName ++ ": " ++ err ∧
      failureLine db gz .compressWait err =
        "Failed to complete gzip for database " ++ db.DBName ++ ": " ++ err := by
  refine ⟨?_, ?_, ?_, ?_, ?_⟩ <;> apply String.ext <;>
    simp [failureLine, Sprintf, sprintfAux, String.data_append]

theorem successLine_text (db : DBInfo) (gz : String) :
    successLine db gz =
      "Successfully backed up and compressed database " ++ db.DBName ++ " to " ++ gz := by
  apply String.ext
  simp [successLine, Sprintf, sprintfAux, String.data_append]

/-- C4: `backupDatabase` stops at the first checkpoint whose call fails.  Its
calls are exactly the pipeline steps up to and including that checkpoint, then
one log message, the failure message of that checkpoint with the error, then
the deferred closes, and nothing else: no later pipeline step, no step twice,
no call that ends the process.  The pipe writer is closed and the compressor
waited on exactly when the first four checkpoints succeed, so never after a
failed wait on the dump.  When all five checkpoints succeed the calls are the
six pipeline steps, the success message and the deferred closes, and the
success message is logged in no other case.  The text of each message is the
one of the source. -/
theorem C4_first_failure_stops (join : String → String → String) (db : DBInfo)
    (backupPath : String) (now : Time) (o : Outcome) :
    (match firstFailure o with
      | some c =>
        ∃ err, o c = some err ∧
          backupDatabase join db backupPath now o =
            stepsThrough db (gzFilename join db backupPath now) c ++
              Effect.logPrintf (failureLine db (gzFilename join db backupPath now) c err) ::
                releasesAfter (gzFilename join db backupPath now) c
      | none =>
        backupDatabase join db backupPath now o =
          pipelineSteps db (gzFilename join db backupPath now) ++
            Effect.logPrintf (successLine db (gzFilename join db backupPath now)) ::
              releasesAfter (gzFilename join db backupPath now) .compressWait) ∧
      (match firstFailure o with
      | some c =>
        attempts (backupDatabase join db backupPath now o) = throughCheckpoint c ∧
          ∃ err, o c = some err ∧
            logLines (backupDatabase join db backupPath now o) =
              [failureLine db (gzFilename join db backupPath now) c err]
      | none =>
        attempts (backupDatabase join db backupPath now o) = allCheckpoints ∧
          logLines (backupDatabase join db backupPath now o) =
            [successLine db (gzFilename join db backupPath now)]) ∧
      (Effect.closePipeWriter ∈ backupDatabase join db backupPath now o ↔
        o .fileCreate = none ∧ o .dumpStart = none ∧ o .compressStart = none ∧
          o .dumpWait = none) ∧
      (Effect.wait .gzip ∈ backupDatabase join db backupPath now o ↔
        o .fileCreate = none ∧ o .dumpStart = none ∧ o .compressStart = none ∧
          o .dumpWait = none) ∧
      (firstFailure o = some .dumpWait →
        Effect.closePipeWriter ∉ backupDatabase join db backupPath now o ∧
          Effect.wait .gzip ∉ backupDatabase join db backupPath now o) ∧
      (successLine db (gzFilename join db backupPath now) ∈
          logLines (backupDatabase join db backupPath now o) ↔ ∀ c, o c = none) ∧
      (∀ e ∈ backupDatabase join db backupPath now o, e.isFatal = false) ∧
      (∀ err,
        failureLine db (gzFilename join db backupPath now) .fileCreate err =
            "Failed to create backup file " ++ gzFilename join db backupPath now ++ ": " ++ err ∧
          failureLine db (gzFilename join db backupPath now) .dumpStart err =
            "Failed to start mysqldump for database " ++ db.DBName ++ ": " ++ err ∧
          failureLine db (gzFilename join db backupPath now) .compressStart err =
            "Failed to start gzip for database " ++ db.DBName ++ ": " ++ err ∧
          failureLine db (gzFilename join db backupPath now) .dumpWait err =
            "Failed to complete mysqldump for database " ++ db.DBName ++ ": " ++ err ∧
          failureLine db (gzFilename join db backupPath now) .compressWait err =
            "Failed to complete gzip for database " ++ db.DBName ++ ": " ++ err) ∧
      successLine db (gzFilename join db backupPath now) =
        "Successfully backed up and compressed database " ++ db.DBName ++ " to " ++
          gzFilename join db backupPath now := by
  have hne := failureLine_ne_successLine db (gzFilename join db backupPath now)
  have hall : (∀ c, o c = none) ↔ (o .fileCreate = none ∧ o .dumpStart = none ∧
      o .compressStart = none ∧ o .dumpWait = none ∧ o .compressWait = none) :=
    ⟨fun h => ⟨h _, h _, h _, h _, h _⟩, fun ⟨a, b, c, d, e⟩ x => by cases x <;> assumption⟩
  rw [hall]
  refine ⟨?_, ?_, ?_, ?_, ?_, ?_, ?_, fun err => failureLine_text db _ err,
    successLine_text db _⟩
  all_goals
    cases h1 : o .fileCreate <;> cases h2 : o .dumpStart <;> cases h3 : o .compressStart <;>
      cases h4 : o .dumpWait <;> cases h5 : o .compressWait <;>
      simp [backupDatabase, firstFailure, allCheckpoints, throughCheckpoint, attempts, logLines,
        Effect.checkpoint, Effect.isFatal, Checkpoint.index, h1, h2, h3, h4, h5, hne,
        fun c err => (hne c err).symm, pipelineSteps, stepsThrough, releasesAfter]

/-! ## `main` -/

/-- C8, as the claim states it, fails: with action `backup` and a concurrency
value that is no number, `main` ends in the invalid-concurrency error and the
orchestrator is not run; with action `list` likewise for the listing. -/
theorem C8_counterexample :
    main ⟨some "backup", some "abc"⟩ =
        .fatal "Invalid concurrency value: strconv.Atoi: parsing \"abc\": invalid syntax" ∧
      main ⟨some "list", some "abc"⟩ =
        .fatal "Invalid concurrency value: strconv.Atoi: parsing \"abc\": invalid syntax" := by
  constructor <;> decide

/-- C8 (amended): an absent or empty action is the fatal missing-action error;
otherwise a concurrency value that `Atoi` rejects is the fatal
invalid-concurrency error whatever the action; otherwise action `backup` runs
the orchestrator with the parsed value, action `list` runs the listing, and
any other action is the fatal invalid-action error. -/
theorem C8_dispatch (f : Flags) :
    (f.action.getD "" = "" →
        main f = .fatal "Please specify an action: \x27backup\x27 or \x27list\x27") ∧
      (f.action.getD "" ≠ "" → ∀ err, Atoi (f.concurrency.getD "3") = .error err →
        main f = .fatal (Sprintf "Invalid concurrency value: %v" [err])) ∧
      (∀ n, Atoi (f.concurrency.getD "3") = .ok n →
        (f.action.getD "" = "backup" → main f = .startBackup n) ∧
        (f.action.getD "" = "list" → main f = .listBackups) ∧
        (f.action.getD "" ≠ "" → f.action.getD "" ≠ "backup" → f.action.getD "" ≠ "list" →
          main f = .fatal (Sprintf "Invalid action: %s" [f.action.getD ""]))) := by
  refine ⟨fun h => ?_, fun h err he => ?_, fun n hn => ⟨fun h => ?_, fun h => ?_, fun h1 h2 h3 => ?_⟩⟩
  · simp [main, h]
  · simp [main, h, he]
  · have h0 : f.action.getD "" ≠ "" := by rw [h]; decide
    simp [main, h0, hn, h]
  · have h0 : f.action.getD "" ≠ "" := by rw [h]; decide
    have h1 : f.action.getD "" ≠ "backup" := by rw [h]; decide
    simp [main, h0, hn, h1, h]
  · simp [main, h1, h2, h3, hn]

/-! ## `strconv.Atoi` -/

theorem toDigitsCore_all_digit (fuel : Nat) : ∀ (n : Nat) (ds : List Char),
    ds.all Char.isDigit = true → (Nat.toDigitsCore 10 fuel n ds).all Char.isDigit = true := by
  induction fuel with
  | zero => intro n ds h; simpa [Nat.toDigitsCore] using h
  | succ f ih =>
    intro n ds h
    have hd : ∀ d, d < 10 → (Nat.digitChar d).isDigit = true := by decide
    have hc : (Nat.digitChar (n % 10) :: ds).all Char.isDigit = true := by
      simp only [List.all_cons, Bool.and_eq_true]
      exact ⟨hd _ (Nat.mod_lt _ (by decide)), h⟩
    simp only [Nat.toDigitsCore]
    split
    · exact hc
    · exact ih _ _ hc

theorem toDigitsCore_ne_nil (fuel n : Nat) : Nat.toDigitsCore 10 (fuel + 1) n [] ≠ [] := by
  simp only [Nat.toDigitsCore]
  split
  · simp
  · rw [toDigitsCore_append]
    simp

theorem toDigits_head_digit (n : Nat) :
    ∃ c r, Nat.toDigits 10 n = c :: r ∧ c.isDigit = true := by
  have h1 : Nat.toDigits 10 n ≠ [] := toDigitsCore_ne_nil n n
  have h2 : (Nat.toDigits 10 n).all Char.isDigit = true :=
    toDigitsCore_all_digit _ _ _ (by simp)
  cases h : Nat.toDigits 10 n with
  | nil => exact absurd h h1
  | cons c r =>
    rw [h] at h2
    simp only [List.all_cons, Bool.and_eq_true] at h2
    exact ⟨c, r, rfl, h2.1⟩

theorem atoi_repr (n : Nat) (hn : n < 9223372036854775808) :
    Atoi (Nat.repr n) = .ok (n : Int) := by
  obtain ⟨c, r, hcr, hc⟩ := toDigits_head_digit n
  have hall : (Nat.toDigits 10 n).all Char.isDigit = true :=
    toDigitsCore_all_digit _ _ _ (by simp)
  have hdec := decodeDigits_toDigits n
  have hplus : c ≠ '+' := by rintro rfl; exact absurd hc (by decide)
  have hminus : c ≠ '-' := by rintro rfl; exact absurd hc (by decide)
  have hdata : (Nat.repr n).data = c :: r := by simp [Nat.repr, List.asString, hcr]
  rw [hcr] at hall hdec
  have hbody : (match c :: r with
      | '+' :: r => r
      | '-' :: r => r
      | r => r) = c :: r := by
    split
    · rename_i h; exact absurd (List.cons.inj h).1 hplus
    · rename_i h; exact absurd (List.cons.inj h).1 hminus
    · rfl
  unfold Atoi
  simp only [hdata, hbody, hall, List.head?_cons, Option.some.injEq, hminus, hdec]
  have h1 : ¬ ((n : Int) < -9223372036854775808 ∨ 9223372036854775807 < (n : Int)) := by omega
  simp only [if_false]
  rw [if_neg h1]
  simp

theorem atoi_not_numeral (s : String) (h : isNumeral s = false) :
    ∃ err, Atoi s = .error err := by
  unfold isNumeral at h
  unfold Atoi
  have key : ∀ body : List Char, (!body.isEmpty && body.all Char.isDigit) = false →
      (body = [] ∨ ¬ body.all Char.isDigit = true) := by
    intro body hb
    cases body with
    | nil => exact Or.inl rfl
    | cons x xs =>
      right
      simpa using hb
  split at h <;> simp only [key _ h, if_true] <;> exact ⟨_, rfl⟩

/-- With action `backup`, `main` ends in the invalid-concurrency error exactly
when `Atoi` rejects the flag value, and otherwise hands the parsed integer to
`startBackup`; every value that is no numeral is rejected; an omitted flag
gives 3; and the decimal numeral of every `n` below `2^63` is handed over as
`n`. -/
theorem main_backup_concurrency (concurrency : Option String) :
    (∀ err, Atoi (concurrency.getD "3") = .error err →
        main ⟨some "backup", concurrency⟩ =
          .fatal (Sprintf "Invalid concurrency value: %v" [err])) ∧
      (∀ n, Atoi (concurrency.getD "3") = .ok n →
        main ⟨some "backup", concurrency⟩ = .startBackup n) ∧
      (∀ s, concurrency = some s → isNumeral s = false →
        ∃ err, main ⟨some "backup", concurrency⟩ =
          .fatal (Sprintf "Invalid concurrency value: %v" [err])) ∧
      main ⟨some "backup", none⟩ = .startBackup 3 ∧
      (∀ n : Nat, n < 9223372036854775808 →
        main ⟨some "backup", some (Nat.repr n)⟩ = .startBackup n) := by
  have hb : ¬ ("backup" = "") := by decide
  refine ⟨fun err he => ?_, fun n hn => ?_, fun s hs hnum => ?_, by decide, fun n hn => ?_⟩
  · simp [main, hb, he]
  · simp [main, hb, hn]
  · obtain ⟨err, he⟩ := atoi_not_numeral s hnum
    subst hs
    exact ⟨err, by simp [main, hb, he]⟩
  · simp [main, hb, atoi_repr n hn]

/-- C9, the code at the failing inputs: `main` hands the values `0` and `-1`
to `startBackup` instead of ending in the invalid-concurrency error.  With
capacity 0 and the two sample targets the run reaches `wg.Wait()` with both
units waiting for a permit, the output directory already created, and no
goroutine can step: the process is deadlocked.  With capacity -1 the first
step of the fan-out, `make(chan struct{}, -1)`, panics. -/
theorem C9_nonpositive_concurrency :
    main ⟨some "backup", some "0"⟩ = .startBackup 0 ∧
      main ⟨some "backup", some "-1"⟩ = .startBackup (-1) ∧
      (∃ s, run { sampleEnv allSucceed with maxConcurrency := 0 } (startBackupInit sampleWorld)
            [.main, .main, .main, .main, .main, .main] = some s ∧
          s.pc = .wait ∧ s.units = [.acquire, .acquire] ∧
          (Thread.main, Effect.mkdirAll "/backups") ∈ s.trace ∧
          ∀ t, step { sampleEnv allSucceed with maxConcurrency := 0 } s t = none) ∧
      ∃ s, run { sampleEnv allSucceed with maxConcurrency := -1 } (startBackupInit sampleWorld)
            [.main] = some s ∧
          s.pc = .panicked ∧ (Thread.main, Effect.mkdirAll "/backups") ∈ s.trace := by
  refine ⟨by decide, by decide, ⟨_, rfl, rfl, rfl, by decide, fun t => ?_⟩,
    ⟨_, rfl, rfl, by decide⟩⟩
  match t with
  | .main => rfl
  | .unit 0 => rfl
  | .unit 1 => rfl
  | .unit (n + 2) => rfl

/-! ## The fan-out: counting -/

theorem countP_set {α : Type} (p : α → Bool) : ∀ (l : List α) (i : Nat) (a b : α),
    l[i]? = some a →
    (l.set i b).countP p + (if p a then 1 else 0) = l.countP p + (if p b then 1 else 0) := by
  intro l
  induction l with
  | nil => intro i a b h; simp at h
  | cons x xs ih =>
    intro i a b h
    cases i with
    | zero =>
      simp only [List.getElem?_cons_zero, Option.some.injEq] at h
      subst h
      simp only [List.set_cons_zero, List.countP_cons]
      omega
    | succ k =>
      simp only [List.getElem?_cons_succ] at h
      have := ih k a b h
      simp only [List.set_cons_succ, List.countP_cons]
      omega

theorem countP_pos_of_getElem? {α : Type} (p : α → Bool) (l : List α) (i : Nat) (a : α)
    (h : l[i]? = some a) (hp : p a = true) : 0 < l.countP p := by
  rw [List.countP_pos_iff]
  exact ⟨a, List.getElem?_mem h, hp⟩

theorem length_of_getElem? {α : Type} (l : List α) (i : Nat) (a : α)
    (h : l[i]? = some a) : i < l.length := by
  by_contra hc
  rw [List.getElem?_eq_none (by omega)] at h
  exact absurd h (by simp)

/-! ## The fan-out: the invariant -/

theorem inv_stepMain (env : Env) (n : Nat) (s s' : State)
    (hn : s.dbConfig.DBLists.length = n) (hinv : Inv n env.maxConcurrency s)
    (h : stepMain env s = some s') : Inv n env.maxConcurrency s' := by
  obtain ⟨h1, h2, h3, h4, h5, h6⟩ := hinv
  unfold stepMain at h
  split at h
  · rename_i hpc
    split at h <;> simp only [Option.some.injEq] at h <;> subst h <;>
      simp_all [Inv, State.holding, State.unfinished, MainPc.pending, MainPc.spawned,
        MainPc.joined]
    all_goals omega
  · rename_i i hpc
    split at h <;> simp only [Option.some.injEq] at h <;> subst h <;>
      simp_all [Inv, State.holding, State.unfinished, MainPc.pending, MainPc.spawned,
        MainPc.joined]
    all_goals omega
  · rename_i i hpc
    split at h
    · simp only [Option.some.injEq] at h
      subst h
      simp_all [Inv, State.holding, State.unfinished, MainPc.pending, MainPc.spawned,
        MainPc.joined, List.countP_append]
      omega
    · exact absurd h (by simp)
  · rename_i hpc
    split at h
    · simp only [Option.some.injEq] at h
      subst h
      simp_all [Inv, State.holding, State.unfinished, MainPc.pending, MainPc.spawned,
        MainPc.joined]
    · exact absurd h (by simp)
  · rename_i hpc
    simp only [Option.some.injEq] at h
    subst h
    simp_all [Inv, State.holding, State.unfinished, MainPc.pending, MainPc.spawned,
      MainPc.joined]
  · exact absurd h (by simp)

theorem countP_set_nat {α : Type} (p : α → Bool) (l : List α) (i : Nat) (a b : α)
    (h : l[i]? = some a) (x y : Nat) (hx : (if p a = true then 1 else 0) = x)
    (hy : (if p b = true then 1 else 0) = y) :
    (l.set i b).countP p + x = l.countP p + y := by
  subst hx hy
  exact countP_set p l i a b h

theorem joined_alive_unfinished (n : Nat) (c : Int) (s : State) (i : Nat) (a : UnitPc)
    (hinv : Inv n c s) (h : s.units[i]? = some a) (ha : a ≠ .finished) :
    s.pc.joined = false ∧ 0 < s.wg := by
  obtain ⟨_, _, h3, _, h5, _⟩ := hinv
  have hpos : 0 < s.unfinished :=
    countP_pos_of_getElem? _ s.units i a h (by simpa using ha)
  have hwg : 0 < s.wg := by omega
  refine ⟨?_, hwg⟩
  cases hj : s.pc.joined
  · rfl
  · have := h5 hj
    omega

theorem inv_stepUnit (env : Env) (n : Nat) (s s' : State) (i : Nat)
    (hinv : Inv n env.maxConcurrency s) (h : stepUnit env s i = some s') :
    Inv n env.maxConcurrency s' := by
  have hinv0 := hinv
  obtain ⟨h1, h2, h3, h4, h5, h6⟩ := hinv
  unfold stepUnit at h
  split at h
  swap
  · exact absurd h (by simp)
  rename_i halive
  split at h
  · -- the send
    rename_i hget
    have hH := countP_set_nat (fun u : UnitPc => decide (u = .backup ∨ u = .release))
      s.units i _ .backup hget 0 1 (by decide) (by decide)
    have hU := countP_set_nat (fun u : UnitPc => decide (u ≠ .finished))
      s.units i _ .backup hget 1 1 (by decide) (by decide)
    split at h
    · rename_i hlt
      simp only [Option.some.injEq] at h
      subst h
      simp only [State.holding, State.unfinished] at h1 h3
      refine ⟨?_, ?_, ?_, ?_, ?_, by simpa using h6⟩
      · simp only [State.holding]; omega
      · simp only []; omega
      · simp only [State.unfinished]; omega
      · simpa using h4
      · simpa using h5
    · exact absurd h (by simp)
  · -- the call of backupDatabase
    rename_i hget
    have hH := countP_set_nat (fun u : UnitPc => decide (u = .backup ∨ u = .release))
      s.units i _ .release hget 1 1 (by decide) (by decide)
    have hU := countP_set_nat (fun u : UnitPc => decide (u ≠ .finished))
      s.units i _ .release hget 1 1 (by decide) (by decide)
    split at h
    · simp only [Option.some.injEq] at h
      subst h
      simp only [State.holding, State.unfinished] at h1 h3
      refine ⟨?_, ?_, ?_, ?_, ?_, by simpa using h6⟩
      · simp only [State.holding]; omega
      · simpa using h2
      · simp only [State.unfinished]; omega
      · simpa using h4
      · simpa using h5
    · exact absurd h (by simp)
  · -- the receive
    rename_i hget
    have hH := countP_set_nat (fun u : UnitPc => decide (u = .backup ∨ u = .release))
      s.units i _ .wgDone hget 1 0 (by decide) (by decide)
    have hU := countP_set_nat (fun u : UnitPc => decide (u ≠ .finished))
      s.units i _ .wgDone hget 1 1 (by decide) (by decide)
    split at h
    · rename_i hpos
      simp only [Option.some.injEq] at h
      subst h
      simp only [State.holding, State.unfinished] at h1 h3
      refine ⟨?_, ?_, ?_, ?_, ?_, by simpa using h6⟩
      · simp only [State.holding]; omega
      · simp only []; omega
      · simp only [State.unfinished]; omega
      · simpa using h4
      · simpa using h5
    · exact absurd h (by simp)
  · -- the deferred wg.Done()
    rename_i hget
    have hH := countP_set_nat (fun u : UnitPc => decide (u = .backup ∨ u = .release))
      s.units i _ .finished hget 0 0 (by decide) (by decide)
    have hU := countP_set_nat (fun u : UnitPc => decide (u ≠ .finished))
      s.units i _ .finished hget 1 0 (by decide) (by decide)
    obtain ⟨hj, hwg⟩ := joined_alive_unfinished n _ s i _ hinv0 hget (by decide)
    split at h
    · simp only [Option.some.injEq] at h
      subst h
      simp only [State.holding, State.unfinished] at h1 h3
      refine ⟨?_, ?_, ?_, ?_, ?_, by simpa using h6⟩
      · simp only [State.holding]; omega
      · simpa using h2
      · simp only [State.unfinished]; omega
      · simpa using h4
      · simp [hj]
    · rename_i hneg
      exact absurd hwg hneg
  · exact absurd h (by simp)

theorem step_dbConfig (env : Env) (s s' : State) (t : Thread) (h : step env s t = some s') :
    s'.dbConfig = s.dbConfig := by
  cases t with
  | main =>
    simp only [step, stepMain] at h
    split at h
    · split at h <;> simp only [Option.some.injEq] at h <;> subst h <;> rfl
    · split at h <;> simp only [Option.some.injEq] at h <;> subst h <;> rfl
    · split at h
      · simp only [Option.some.injEq] at h; subst h; rfl
      · exact absurd h (by simp)
    · split at h
      · simp only [Option.some.injEq] at h; subst h; rfl
      · exact absurd h (by simp)
    · simp only [Option.some.injEq] at h; subst h; rfl
    · exact absurd h (by simp)
  | unit i =>
    simp only [step, stepUnit] at h
    split at h
    swap
    · exact absurd h (by simp)
    split at h
    · split at h
      · simp only [Option.some.injEq] at h; subst h; rfl
      · exact absurd h (by simp)
    · split at h
      · simp only [Option.some.injEq] at h; subst h; rfl
      · exact absurd h (by simp)
    · split at h
      · simp only [Option.some.injEq] at h; subst h; rfl
      · exact absurd h (by simp)
    · split at h <;> simp only [Option.some.injEq] at h <;> subst h <;> rfl
    · exact absurd h (by simp)

theorem inv_step (env : Env) (n : Nat) (s s' : State) (t : Thread)
    (hn : s.dbConfig.DBLists.length = n) (hinv : Inv n env.maxConcurrency s)
    (h : step env s t = some s') :
    s'.dbConfig.DBLists.length = n ∧ Inv n env.maxConcurrency s' := by
  refine ⟨by rw [step_dbConfig env s s' t h]; exact hn, ?_⟩
  cases t with
  | main => exact inv_stepMain env n s s' hn hinv h
  | unit i => exact inv_stepUnit env n s s' i hinv h

theorem inv_run (env : Env) (n : Nat) (sched : List Thread) : ∀ (s s' : State),
    s.dbConfig.DBLists.length = n → Inv n env.maxConcurrency s →
    run env s sched = some s' →
    s'.dbConfig.DBLists.length = n ∧ Inv n env.maxConcurrency s' := by
  induction sched with
  | nil =>
    intro s s' hn hinv h
    simp only [run, Option.some.injEq] at h
    subst h
    exact ⟨hn, hinv⟩
  | cons t ts ih =>
    intro s s' hn hinv h
    simp only [run] at h
    cases hs : step env s t with
    | none => rw [hs] at h; exact absurd h (by simp)
    | some s₁ =>
      rw [hs] at h
      obtain ⟨hn₁, hinv₁⟩ := inv_step env n s s₁ t hn hinv hs
      exact ih s₁ s' hn₁ hinv₁ h

theorem init_of_setup (w : World) (tr : List Effect) (cfg : DBConfig)
    (h : startBackupSetup w = (tr, some cfg)) :
    startBackupInit w =
      { dbConfig := cfg, pc := .makeSem, units := [], sem := 0, wg := 0,
        trace := tr.map fun e => (Thread.main, e) } := by
  simp [startBackupInit, h]

theorem inv_init (w : World) (tr : List Effect) (cfg : DBConfig) (c : Int)
    (h : startBackupSetup w = (tr, some cfg)) :
    (startBackupInit w).dbConfig.DBLists.length = cfg.DBLists.length ∧
      Inv cfg.DBLists.length c (startBackupInit w) := by
  rw [init_of_setup w tr cfg h]
  simp [Inv, State.holding, State.unfinished, MainPc.pending, MainPc.spawned, MainPc.joined]

theorem inv_reachable (w : World) (env : Env) (tr : List Effect) (cfg : DBConfig)
    (sched : List Thread) (s : State) (h : startBackupSetup w = (tr, some cfg))
    (hrun : run env (startBackupInit w) sched = some s) :
    s.dbConfig.DBLists.length = cfg.DBLists.length ∧
      Inv cfg.DBLists.length env.maxConcurrency s := by
  obtain ⟨h1, h2⟩ := inv_init w tr cfg env.maxConcurrency h
  exact inv_run env _ sched _ s h1 h2 hrun

theorem spawned_le (n : Nat) (pc : MainPc) (k : Nat) (h : pc.spawned n k) : k ≤ n := by
  cases pc <;> simp only [MainPc.spawned] at h <;> omega

/-! ## The fan-out: the concurrency bound -/

/-- C1: in a run of `startBackup` over `N` targets with concurrency bound
`C ≥ 1`, in every state reached along every schedule, the number of units
inside `backupDatabase` is at most `min(N, C)`. -/
theorem C1_concurrency_bound (w : World) (env : Env) (tr : List Effect) (cfg : DBConfig)
    (sched : List Thread) (s : State)
    (hsetup : startBackupSetup w = (tr, some cfg))
    (hC : 1 ≤ env.maxConcurrency)
    (hrun : run env (startBackupInit w) sched = some s) :
    (s.inBackup : Int) ≤ min (cfg.DBLists.length : Int) env.maxConcurrency := by
  obtain ⟨_, h1, h2, _, h4, _, _⟩ := inv_reachable w env tr cfg sched s hsetup hrun
  have hlen : s.units.length ≤ cfg.DBLists.length := spawned_le _ _ _ h4
  have hle1 : s.inBackup ≤ s.units.length := List.countP_le_length _
  have hle2 : s.inBackup ≤ s.holding := by
    unfold State.inBackup State.holding
    apply List.countP_mono_left
    intro u _ hu
    simp only [decide_eq_true_eq] at hu ⊢
    exact Or.inl hu
  have hmax : max env.maxConcurrency 0 = env.maxConcurrency := max_eq_left (by omega)
  rw [hmax] at h2
  rw [le_min_iff]
  constructor <;> omega

/-- C1 at the sample run: two targets, capacity 1, both units spawned and unit 0
holding the permit; one unit is inside `backupDatabase`, and a further step of
unit 1 is refused. -/
theorem C1_concurrency_bound_witness :
    ∃ s, run (sampleEnv allSucceed) (startBackupInit sampleWorld) sampleSpawnSchedule = some s ∧
      s.inBackup = 1 ∧ step (sampleEnv allSucceed) s (.unit 1) = none ∧
      (s.inBackup : Int) ≤ min (sampleConfig.DBLists.length : Int) (sampleEnv allSucceed).maxConcurrency :=
  ⟨_, rfl, rfl, rfl,
    C1_concurrency_bound sampleWorld (sampleEnv allSucceed) _ sampleConfig sampleSpawnSchedule _
      rfl (by decide) rfl⟩

/-! ## The fan-out: standard output -/

theorem stdoutLines_append (a b : List Effect) :
    stdoutLines (a ++ b) = stdoutLines a ++ stdoutLines b := by
  simp [stdoutLines, List.filterMap_append]

theorem stdoutLines_tagged (t : Thread) (tr : List Effect) :
    stdoutLines ((tr.map fun e => (t, e)).map Prod.snd) = stdoutLines tr := by
  simp [List.map_map, Function.comp_def]

theorem setupLogging_stdout (w : World) (b : Bool) :
    stdoutLines (setupLogging w b).1 = [] := by
  unfold setupLogging
  cases b <;> cases w.openLog <;> simp [stdoutLines]

theorem setup_stdout (w : World) : stdoutLines (startBackupSetup w).1 = [] := by
  have hlog := setupLogging_stdout w
  unfold startBackupSetup
  cases w.openConfig with
  | some err => simp [stdoutLines]
  | none =>
    cases w.unmarshal w.configBytes with
    | error err => simp [stdoutLines]
    | ok cfg =>
      simp only []
      have h := hlog cfg.EnableLogging
      rcases hsl : setupLogging w cfg.EnableLogging with ⟨logging, ok⟩
      rw [hsl] at h
      simp only [] at h
      cases ok with
      | false =>
        simp only [stdoutLines_append, h, List.append_nil]
        simp [stdoutLines]
      | true =>
        cases w.mkdirAll <;> simp only [stdoutLines_append, h, List.append_nil] <;>
          simp [stdoutLines]

theorem backupDatabase_stdout (join : String → String → String) (db : DBInfo)
    (backupPath : String) (now : Time) (o : Outcome) :
    stdoutLines (backupDatabase join db backupPath now o) = [] := by
  unfold backupDatabase
  cases o .fileCreate <;> cases o .dumpStart <;> cases o .compressStart <;>
    cases o .dumpWait <;> cases o .compressWait <;> simp [stdoutLines]

theorem out_step (env : Env) (s s' : State) (t : Thread) (hout : OutInv s)
    (h : step env s t = some s') : OutInv s' := by
  unfold OutInv at hout ⊢
  cases t with
  | main =>
    simp only [step, stepMain] at h
    split at h
    · rename_i hpc
      split at h <;> simp only [Option.some.injEq] at h <;> subst h <;>
        simpa [State.printed, hpc] using hout
    · rename_i i hpc
      split at h <;> simp only [Option.some.injEq] at h <;> subst h <;>
        simpa [State.printed, hpc] using hout
    · rename_i i hpc
      split at h
      · simp only [Option.some.injEq] at h
        subst h
        simp only [State.printed, hpc, List.map_append, stdoutLines_append] at hout ⊢
        simpa [stdoutLines] using hout
      · exact absurd h (by simp)
    · rename_i hpc
      split at h
      · simp only [Option.some.injEq] at h
        subst h
        simpa [State.printed, hpc] using hout
      · exact absurd h (by simp)
    · rename_i hpc
      simp only [Option.some.injEq] at h
      subst h
      simp only [State.printed, hpc, List.map_append, stdoutLines_append] at hout ⊢
      have hout' : stdoutLines (List.map Prod.snd s.trace) = [] := by simpa using hout
      rw [hout']
      simp [stdoutLines, completionLine]
    · exact absurd h (by simp)
  | unit i =>
    simp only [step, stepUnit] at h
    split at h
    swap
    · exact absurd h (by simp)
    rename_i halive
    have hnr : s.pc ≠ .returned := by
      intro hc
      rw [hc] at halive
      exact absurd halive (by decide)
    split at h
    · split at h
      · simp only [Option.some.injEq] at h
        subst h
        simpa [State.printed] using hout
      · exact absurd h (by simp)
    · split at h
      · simp only [Option.some.injEq] at h
        subst h
        simp only [State.printed, List.map_append, stdoutLines_append, stdoutLines_tagged,
          backupDatabase_stdout, List.append_nil] at hout ⊢
        exact hout
      · exact absurd h (by simp)
    · split at h
      · simp only [Option.some.injEq] at h
        subst h
        simpa [State.printed] using hout
      · exact absurd h (by simp)
    · split at h
      · simp only [Option.some.injEq] at h
        subst h
        simpa [State.printed] using hout
      · simp only [Option.some.injEq] at h
        subst h
        simpa [State.printed, hnr] using hout
    · exact absurd h (by simp)

theorem out_run (env : Env) (sched : List Thread) : ∀ (s s' : State),
    OutInv s → run env s sched = some s' → OutInv s' := by
  induction sched with
  | nil =>
    intro s s' hout h
    simp only [run, Option.some.injEq] at h
    subst h
    exact hout
  | cons t ts ih =>
    intro s s' hout h
    simp only [run] at h
    cases hs : step env s t with
    | none => rw [hs] at h; exact absurd h (by simp)
    | some s₁ =>
      rw [hs] at h
      exact ih s₁ s' (out_step env s s₁ t hout hs) h

theorem out_init (w : World) : OutInv (startBackupInit w) := by
  have h := setup_stdout w
  unfold OutInv startBackupInit
  rcases hs : startBackupSetup w with ⟨tr, _ | cfg⟩ <;> rw [hs] at h <;>
    simpa [State.printed, stdoutLines_tagged] using h

/-! ## The fan-out: the calls of each unit -/

theorem ranAt_append_acquire (l : List UnitPc) (i : Nat) :
    ranAt (l ++ [.acquire]) i = ranAt l i := by
  unfold ranAt
  rcases Nat.lt_trichotomy i l.length with h | h | h
  · rw [List.getElem?_append_left h]
  · subst h
    rw [List.getElem?_concat_length, List.getElem?_eq_none (Nat.le_refl _)]
    rfl
  · rw [List.getElem?_eq_none (by simp; omega), List.getElem?_eq_none (by omega)]

theorem ranAt_set_ne (l : List UnitPc) (j i : Nat) (x : UnitPc) (h : j ≠ i) :
    ranAt (l.set j x) i = ranAt l i := by
  unfold ranAt
  rw [List.getElem?_set_ne h]

theorem ranAt_set_self (l : List UnitPc) (j : Nat) (x old : UnitPc) (h : l[j]? = some old) :
    ranAt (l.set j x) j = x.ran := by
  unfold ranAt
  rw [List.getElem?_set_self (length_of_getElem? l j old h)]

theorem ranAt_of_get (l : List UnitPc) (j : Nat) (old : UnitPc) (h : l[j]? = some old) :
    ranAt l j = old.ran := by
  unfold ranAt
  rw [h]

theorem ranAt_set_same (l : List UnitPc) (j i : Nat) (x old : UnitPc) (h : l[j]? = some old)
    (hx : x.ran = old.ran) : ranAt (l.set j x) i = ranAt l i := by
  by_cases hji : j = i
  · subst hji
    rw [ranAt_set_self l j x old h, ranAt_of_get l j old h, hx]
  · exact ranAt_set_ne l j i x hji

theorem filter_tagged (t t' : Thread) (l : List Effect) :
    ((l.map fun e => (t', e)).filter fun p => decide (p.1 = t)).map Prod.snd =
      if t' = t then l else [] := by
  induction l with
  | nil => simp
  | cons e es ih =>
    by_cases h : t' = t
    · simp only [h, if_true] at ih ⊢
      simp [List.filter_cons, ih]
    · simp only [h, if_false] at ih ⊢
      simp [List.filter_cons, h, ih]

theorem trace_step (env : Env) (s s' : State) (t : Thread) (hT : TraceInv env s)
    (h : step env s t = some s') : TraceInv env s' := by
  intro k
  have hk := hT k
  cases t with
  | main =>
    simp only [step, stepMain] at h
    split at h
    · split at h <;> simp only [Option.some.injEq] at h <;> subst h <;> exact hk
    · split at h <;> simp only [Option.some.injEq] at h <;> subst h <;> exact hk
    · split at h
      · simp only [Option.some.injEq] at h
        subst h
        simp only [State.traceOf] at hk ⊢
        simp only [ranAt_append_acquire]
        rw [← hk]
        simp [List.filter_append]
      · exact absurd h (by simp)
    · split at h
      · simp only [Option.some.injEq] at h; subst h; exact hk
      · exact absurd h (by simp)
    · simp only [Option.some.injEq] at h
      subst h
      simp only [State.traceOf] at hk ⊢
      rw [← hk]
      simp [List.filter_append]
    · exact absurd h (by simp)
  | unit j =>
    simp only [step, stepUnit] at h
    split at h
    swap
    · exact absurd h (by simp)
    split at h
    · rename_i hget
      split at h
      · simp only [Option.some.injEq] at h
        subst h
        simp only [State.traceOf] at hk ⊢
        rw [ranAt_set_same s.units j k .backup .acquire hget rfl]
        exact hk
      · exact absurd h (by simp)
    · rename_i hget
      split at h
      · rename_i db hdb
        simp only [Option.some.injEq] at h
        subst h
        simp only [State.traceOf, List.filter_append, List.map_append, filter_tagged] at hk ⊢
        by_cases hjk : j = k
        · subst hjk
          rw [ranAt_of_get s.units j .backup hget] at hk
          rw [ranAt_set_self s.units j .release .backup hget, hk]
          simp [UnitPc.ran, unitResult, hdb]
        · rw [ranAt_set_ne s.units j k .release hjk, hk]
          have : ¬ (Thread.unit j = Thread.unit k) := by
            intro hc; exact hjk (Thread.unit.inj hc)
          simp [this]
      · exact absurd h (by simp)
    · rename_i hget
      split at h
      · simp only [Option.some.injEq] at h
        subst h
        simp only [State.traceOf] at hk ⊢
        rw [ranAt_set_same s.units j k .wgDone .release hget rfl]
        exact hk
      · exact absurd h (by simp)
    · rename_i hget
      split at h
      · simp only [Option.some.injEq] at h
        subst h
        simp only [State.traceOf] at hk ⊢
        rw [ranAt_set_same s.units j k .finished .wgDone hget rfl]
        exact hk
      · simp only [Option.some.injEq] at h; subst h; exact hk
    · exact absurd h (by simp)

theorem trace_run (env : Env) (sched : List Thread) : ∀ (s s' : State),
    TraceInv env s → run env s sched = some s' → TraceInv env s' := by
  induction sched with
  | nil =>
    intro s s' hT h
    simp only [run, Option.some.injEq] at h
    subst h
    exact hT
  | cons t ts ih =>
    intro s s' hT h
    simp only [run] at h
    cases hs : step env s t with
    | none => rw [hs] at h; exact absurd h (by simp)
    | some s₁ =>
      rw [hs] at h
      exact ih s₁ s' (trace_step env s s₁ t hT hs) h

theorem trace_init (env : Env) (w : World) : TraceInv env (startBackupInit w) := by
  intro k
  unfold startBackupInit
  rcases hs : startBackupSetup w with ⟨tr, _ | cfg⟩ <;>
    simp [State.traceOf, ranAt, List.filter_map, Function.comp_def]

/-! ## The fan-out: the completion barrier -/

theorem joined_all_finished (n : Nat) (c : Int) (s : State) (hinv : Inv n c s)
    (hj : s.pc.joined = true) :
    s.units.length = n ∧ ∀ u ∈ s.units, u = UnitPc.finished := by
  obtain ⟨_, _, h3, h4, h5, _⟩ := hinv
  have hwg := h5 hj
  have hun : s.unfinished = 0 := by omega
  have hlen : s.units.length = n := by
    cases hpc : s.pc <;> rw [hpc] at hj h4 <;> simp only [MainPc.joined] at hj <;>
      first
        | exact h4
        | exact absurd hj (by decide)
  refine ⟨hlen, fun u hu => ?_⟩
  unfold State.unfinished at hun
  rw [List.countP_eq_zero] at hun
  simpa using hun u hu

theorem mem_printed (tr : List Effect) : ∀ (k : Option LogSink) (l : String),
    OutLine.printed l ∈ stdoutFrom k tr → l ∈ stdoutLines tr := by
  induction tr with
  | nil => intro k l h; simp [stdoutFrom] at h
  | cons e r ih =>
    intro k l h
    cases e <;> simp only [stdoutFrom] at h <;>
      first
        | (simp only [stdoutLines, List.filterMap_cons]
           exact ih _ l h)
        | (split at h
           · simp only [List.mem_cons, reduceCtorEq, false_or] at h
             simp only [stdoutLines, List.filterMap_cons]
             exact ih _ l h
           · simp only [stdoutLines, List.filterMap_cons]
             exact ih _ l h)
        | (simp only [List.mem_cons, OutLine.printed.injEq] at h
           simp only [stdoutLines, List.filterMap_cons, List.mem_cons]
           rcases h with h | h
           · exact Or.inl h
           · exact Or.inr (ih _ l h))

theorem printed_returned (s : State) (hout : OutInv s) (h : completionLine ∈ s.printed) :
    s.pc = .returned := by
  unfold OutInv at hout
  by_contra hc
  rw [hout, if_neg hc] at h
  exact absurd h (by simp)

/-- C2: in a run of `startBackup` that got past the fatal checks, in every
state reached along every schedule in which `wg.Wait()` has returned, or the
completion line is on standard output, or `startBackup` has returned, one unit
was spawned for every target and every unit has ended: none is waiting for a
permit or inside its pipeline, and the trace holds the calls of a returned
`backupDatabase` for each of them. -/
theorem C2_returns_after_all_units (w : World) (env : Env) (tr : List Effect)
    (cfg : DBConfig) (sched : List Thread) (s : State)
    (hsetup : startBackupSetup w = (tr, some cfg))
    (hrun : run env (startBackupInit w) sched = some s)
    (hret : s.pc = .println ∨ s.pc = .returned ∨ OutLine.printed completionLine ∈ s.stdout) :
    s.units.length = cfg.DBLists.length ∧ (∀ u ∈ s.units, u = UnitPc.finished) ∧
      ∀ i, i < cfg.DBLists.length → s.traceOf (.unit i) = unitResult env cfg i := by
  obtain ⟨_, hinv⟩ := inv_reachable w env tr cfg sched s hsetup hrun
  have hout := out_run env sched _ s (out_init w) hrun
  have hT := trace_run env sched _ s (trace_init env w) hrun
  have hcfg : s.dbConfig = cfg := by
    have hrun0 := hrun
    clear hret hout hT hinv
    have key : ∀ (sched : List Thread) (a b : State), run env a sched = some b →
        b.dbConfig = a.dbConfig := by
      intro sched
      induction sched with
      | nil => intro a b h; simp only [run, Option.some.injEq] at h; rw [h]
      | cons t ts ih =>
        intro a b h
        simp only [run] at h
        cases hs : step env a t with
        | none => rw [hs] at h; exact absurd h (by simp)
        | some a₁ =>
          rw [hs] at h
          rw [ih a₁ b h, step_dbConfig env a a₁ t hs]
    rw [key sched _ s hrun0, init_of_setup w tr cfg hsetup]
  have hj : s.pc.joined = true := by
    rcases hret with h | h | h
    · rw [h]; rfl
    · rw [h]; rfl
    · rw [printed_returned s hout (mem_printed _ _ _ h)]; rfl
  obtain ⟨hlen, hfin⟩ := joined_all_finished _ _ s hinv hj
  refine ⟨hlen, hfin, fun i hi => ?_⟩
  have hi' : i < s.units.length := by omega
  have hget : s.units[i]? = some s.units[i] := List.getElem?_eq_getElem hi'
  have hu : s.units[i] = UnitPc.finished := hfin _ (List.getElem_mem hi')
  rw [hT i, ranAt_of_get s.units i _ hget, hu, hcfg]
  rfl

/-- C2 at the sample run with every dump failing: the complete schedule ends
with `startBackup` returned, and both units have ended. -/
theorem C2_returns_after_all_units_witness :
    ∃ s, run (sampleEnv allDumpsFail) (startBackupInit sampleWorld) sampleSchedule = some s ∧
      s.pc = .returned ∧
      (s.units.length = sampleConfig.DBLists.length ∧ (∀ u ∈ s.units, u = UnitPc.finished) ∧
        ∀ i, i < sampleConfig.DBLists.length →
          s.traceOf (.unit i) = unitResult (sampleEnv allDumpsFail) sampleConfig i) :=
  ⟨_, rfl, rfl,
    C2_returns_after_all_units sampleWorld (sampleEnv allDumpsFail) _ sampleConfig
      sampleSchedule _ rfl rfl (Or.inr (Or.inl rfl))⟩

/-! ## The fan-out: outcomes do not steer the run -/

theorem run_dbConfig (env : Env) (sched : List Thread) : ∀ (a b : State),
    run env a sched = some b → b.dbConfig = a.dbConfig := by
  induction sched with
  | nil => intro a b h; simp only [run, Option.some.injEq] at h; rw [h]
  | cons t ts ih =>
    intro a b h
    simp only [run] at h
    cases hs : step env a t with
    | none => rw [hs] at h; exact absurd h (by simp)
    | some a₁ =>
      rw [hs] at h
      rw [ih a₁ b h, step_dbConfig env a a₁ t hs]

theorem step_control (env env' : Env) (hmc : env'.maxConcurrency = env.maxConcurrency)
    (s s' s₁ : State) (t : Thread) (hc : SameControl s s') (h : step env s t = some s₁) :
    ∃ s₁', step env' s' t = some s₁' ∧ SameControl s₁ s₁' := by
  obtain ⟨hd, hp, hu, hs, hw⟩ := hc
  cases t with
  | main =>
    simp only [step, stepMain] at h ⊢
    split at h
    · rename_i hpc
      split at h <;> simp only [Option.some.injEq] at h <;> subst h <;>
        simp_all [SameControl]
      all_goals (rw [if_neg (by omega)]; simp)
    · rename_i i hpc
      split at h <;> simp only [Option.some.injEq] at h <;> subst h <;>
        simp_all [SameControl]
      all_goals (rw [if_neg (by omega)]; simp)
    · rename_i i hpc
      split at h
      · simp only [Option.some.injEq] at h
        subst h
        simp_all [SameControl]
      · exact absurd h (by simp)
    · rename_i hpc
      split at h
      · simp only [Option.some.injEq] at h
        subst h
        simp_all [SameControl]
      · exact absurd h (by simp)
    · rename_i hpc
      simp only [Option.some.injEq] at h
      subst h
      simp_all [SameControl]
    · exact absurd h (by simp)
  | unit j =>
    simp only [step, stepUnit] at h ⊢
    split at h
    swap
    · exact absurd h (by simp)
    rename_i halive
    split at h
    · rename_i hget
      split at h
      · simp only [Option.some.injEq] at h
        subst h
        simp_all [SameControl]
      · exact absurd h (by simp)
    · rename_i hget
      split at h
      · simp only [Option.some.injEq] at h
        subst h
        simp_all [SameControl]
      · exact absurd h (by simp)
    · rename_i hget
      split at h
      · simp only [Option.some.injEq] at h
        subst h
        simp_all [SameControl]
      · exact absurd h (by simp)
    · rename_i hget
      split at h <;> simp only [Option.some.injEq] at h <;> subst h <;>
        simp_all [SameControl]
    · exact absurd h (by simp)

theorem run_control (env env' : Env) (hmc : env'.maxConcurrency = env.maxConcurrency)
    (sched : List Thread) : ∀ (s s' sf : State), SameControl s s' →
    run env s sched = some sf → ∃ sf', run env' s' sched = some sf' ∧ SameControl sf sf' := by
  induction sched with
  | nil =>
    intro s s' sf hc h
    simp only [run, Option.some.injEq] at h
    subst h
    exact ⟨s', rfl, hc⟩
  | cons t ts ih =>
    intro s s' sf hc h
    simp only [run] at h
    cases hs : step env s t with
    | none => rw [hs] at h; exact absurd h (by simp)
    | some s₁ =>
      rw [hs] at h
      obtain ⟨s₁', hs', hc₁⟩ := step_control env env' hmc s s' s₁ t hc hs
      obtain ⟨sf', hr', hcf⟩ := ih s₁ s₁' sf hc₁ h
      exact ⟨sf', by simp only [run, hs']; exact hr', hcf⟩

theorem unitResult_congr (env env' : Env) (cfg : DBConfig) (i : Nat)
    (hj : env'.join = env.join) (hk : env'.clock = env.clock)
    (ho : env'.outcome i = env.outcome i) :
    unitResult env' cfg i = unitResult env cfg i := by
  unfold unitResult
  rw [hj, hk, ho]

/-! ## The fan-out: the main goroutine finishes -/

theorem main_finishes (env : Env) (n : Nat) (s : State)
    (hn : s.dbConfig.DBLists.length = n) (hinv : Inv n env.maxConcurrency s)
    (hC : 0 ≤ env.maxConcurrency) (hlen : s.units.length = n)
    (hfin : ∀ u ∈ s.units, u = UnitPc.finished) :
    ∃ k sf, run env s (List.replicate k .main) = some sf ∧ sf.pc = .returned := by
  obtain ⟨_, _, h3, h4, _, h6⟩ := hinv
  obtain ⟨hne, hnp⟩ := h6 hC
  have hun : s.unfinished = 0 := by
    unfold State.unfinished
    rw [List.countP_eq_zero]
    intro u hu
    simp [hfin u hu]
  have hC' : ¬ env.maxConcurrency < 0 := by omega
  cases hpc : s.pc with
  | exited => exact absurd hpc hne
  | panicked => exact absurd hpc hnp
  | makeSem =>
    rw [hpc] at h3 h4
    simp only [MainPc.spawned, MainPc.pending] at h3 h4
    have hl : ¬ 0 < s.dbConfig.DBLists.length := by omega
    have hwg : s.wg = 0 := by omega
    refine ⟨4, ?_⟩
    simp [List.replicate, run, step, stepMain, hpc, hC', hl, hwg]
  | loop i =>
    rw [hpc] at h3 h4
    simp only [MainPc.spawned, MainPc.pending] at h3 h4
    have hl : ¬ i < s.dbConfig.DBLists.length := by omega
    have hwg : s.wg = 0 := by omega
    refine ⟨3, ?_⟩
    simp [List.replicate, run, step, stepMain, hpc, hl, hwg]
  | go i =>
    rw [hpc] at h4
    simp only [MainPc.spawned] at h4
    omega
  | wait =>
    rw [hpc] at h3
    simp only [MainPc.pending] at h3
    have hwg : s.wg = 0 := by omega
    refine ⟨2, ?_⟩
    simp [List.replicate, run, step, stepMain, hpc, hwg]
  | println =>
    refine ⟨1, ?_⟩
    simp [List.replicate, run, step, stepMain, hpc]
  | returned =>
    exact ⟨0, s, rfl, hpc⟩

/-! ## The fan-out: standard output and the logger -/

theorem stdoutFrom_append (a : List Effect) : ∀ (k : Option LogSink) (b : List Effect),
    stdoutFrom k (a ++ b) = stdoutFrom k a ++ stdoutFrom (sinkAfter k a) b := by
  induction a with
  | nil => intro k b; rfl
  | cons e r ih =>
    intro k b
    rw [List.cons_append]
    cases e <;> simp only [stdoutFrom, sinkAfter] <;> (try split) <;> simp [ih]

theorem sinkAfter_append (a : List Effect) : ∀ (k : Option LogSink) (b : List Effect),
    sinkAfter k (a ++ b) = sinkAfter (sinkAfter k a) b := by
  induction a with
  | nil => intro k b; rfl
  | cons e r ih =>
    intro k b
    rw [List.cons_append]
    cases e <;> simp only [sinkAfter, ih]

theorem backupDatabase_sink (join : String → String → String) (db : DBInfo)
    (backupPath : String) (now : Time) (o : Outcome) (k : Option LogSink) :
    sinkAfter k (backupDatabase join db backupPath now o) = k := by
  unfold backupDatabase
  cases o .fileCreate <;> cases o .dumpStart <;> cases o .compressStart <;>
    cases o .dumpWait <;> cases o .compressWait <;> simp [sinkAfter]

theorem backupDatabase_stdout_file (join : String → String → String) (db : DBInfo)
    (backupPath : String) (now : Time) (o : Outcome) (n : String) :
    stdoutFrom (some (.file n)) (backupDatabase join db backupPath now o) = [] := by
  unfold backupDatabase
  cases o .fileCreate <;> cases o .dumpStart <;> cases o .compressStart <;>
    cases o .dumpWait <;> cases o .compressWait <;> simp [stdoutFrom]

theorem step_trace (env : Env) (s s' : State) (t : Thread) (h : step env s t = some s') :
    (s'.trace = s.trace ∧ s'.pc ≠ .returned) ∨
      (∃ db, s'.trace = s.trace ++ [(Thread.main, Effect.spawn db)] ∧ s'.pc ≠ .returned) ∨
      (s'.trace = s.trace ++ [(Thread.main, Effect.println completionLine),
          (Thread.main, Effect.closeFile "config.json")] ∧ s'.pc = .returned) ∨
      (∃ i db, s'.trace = s.trace ++
          (backupDatabase env.join db s.dbConfig.BackupTargetPath (env.clock i)
            (env.outcome i)).map (fun e => (Thread.unit i, e)) ∧ s'.pc ≠ .returned) := by
  cases t with
  | main =>
    simp only [step, stepMain] at h
    split at h
    · split at h <;> simp only [Option.some.injEq] at h <;> subst h <;> simp
    · split at h <;> simp only [Option.some.injEq] at h <;> subst h <;> simp
    · split at h
      · simp only [Option.some.injEq] at h
        subst h
        right; left
        exact ⟨_, rfl, by simp⟩
      · exact absurd h (by simp)
    · split at h
      · simp only [Option.some.injEq] at h; subst h; simp
      · exact absurd h (by simp)
    · simp only [Option.some.injEq] at h
      subst h
      right; right; left
      exact ⟨rfl, rfl⟩
    · exact absurd h (by simp)
  | unit j =>
    simp only [step, stepUnit] at h
    split at h
    swap
    · exact absurd h (by simp)
    rename_i halive
    have hnr : s.pc ≠ .returned := by
      intro hc
      rw [hc] at halive
      exact absurd halive (by decide)
    split at h
    · split at h
      · simp only [Option.some.injEq] at h; subst h; exact Or.inl ⟨rfl, hnr⟩
      · exact absurd h (by simp)
    · split at h
      · simp only [Option.some.injEq] at h
        subst h
        right; right; right
        exact ⟨_, _, rfl, hnr⟩
      · exact absurd h (by simp)
    · split at h
      · simp only [Option.some.injEq] at h; subst h; exact Or.inl ⟨rfl, hnr⟩
      · exact absurd h (by simp)
    · split at h
      · simp only [Option.some.injEq] at h; subst h; exact Or.inl ⟨rfl, hnr⟩
      · simp only [Option.some.injEq] at h; subst h; exact Or.inl ⟨rfl, by simp⟩
    · exact absurd h (by simp)

theorem log_step (env : Env) (cfg : DBConfig) (s s' : State) (t : Thread)
    (hL : LogInv cfg s) (h : step env s t = some s') : LogInv cfg s' := by
  obtain ⟨hfile, _⟩ := hL
  rcases step_trace env s s' t h with ⟨ht, hpc⟩ | ⟨db, ht, hpc⟩ | ⟨ht, hpc⟩ | ⟨i, db, ht, hpc⟩
  · refine ⟨fun hb => ?_, fun hr => absurd hr hpc⟩
    obtain ⟨hs, ho⟩ := hfile hb
    simp only [State.sink, State.stdout, State.printed, ht] at hs ho ⊢
    exact ⟨hs, ho⟩
  · refine ⟨fun hb => ?_, fun hr => absurd hr hpc⟩
    obtain ⟨⟨n, hs⟩, ho⟩ := hfile hb
    simp only [State.sink, State.stdout, State.printed, ht, List.map_append, List.map_cons,
      List.map_nil, sinkAfter_append, stdoutFrom_append, stdoutLines_append] at hs ho ⊢
    rw [hs, ho]
    exact ⟨⟨n, by simp [sinkAfter]⟩, by simp [stdoutFrom, stdoutLines]⟩
  · refine ⟨fun hb => ?_, fun _ => ?_⟩
    · obtain ⟨⟨n, hs⟩, ho⟩ := hfile hb
      simp only [State.sink, State.stdout, State.printed, ht, List.map_append, List.map_cons,
        List.map_nil, sinkAfter_append, stdoutFrom_append, stdoutLines_append] at hs ho ⊢
      rw [hs, ho]
      exact ⟨⟨n, by simp [sinkAfter]⟩, by simp [stdoutFrom, stdoutLines]⟩
    · simp only [State.stdout, ht, List.map_append, List.map_cons, List.map_nil,
        stdoutFrom_append]
      simp [stdoutFrom]
  · refine ⟨fun hb => ?_, fun hr => absurd hr hpc⟩
    obtain ⟨⟨n, hs⟩, ho⟩ := hfile hb
    simp only [State.sink, State.stdout, State.printed, ht, List.map_append, List.map_map,
      sinkAfter_append, stdoutFrom_append, stdoutLines_append] at hs ho ⊢
    have hid : (Prod.snd ∘ fun e => (Thread.unit i, e)) = (id : Effect → Effect) := rfl
    rw [hs, ho, hid, List.map_id, backupDatabase_sink, backupDatabase_stdout_file,
      backupDatabase_stdout]
    exact ⟨⟨n, rfl⟩, by simp⟩

theorem log_run (env : Env) (cfg : DBConfig) (sched : List Thread) : ∀ (s s' : State),
    LogInv cfg s → run env s sched = some s' → LogInv cfg s' := by
  induction sched with
  | nil =>
    intro s s' hL h
    simp only [run, Option.some.injEq] at h
    subst h
    exact hL
  | cons t ts ih =>
    intro s s' hL h
    simp only [run] at h
    cases hs : step env s t with
    | none => rw [hs] at h; exact absurd h (by simp)
    | some s₁ =>
      rw [hs] at h
      exact ih s₁ s' (log_step env cfg s s₁ t hL hs) h

theorem log_init (w : World) (tr : List Effect) (cfg : DBConfig)
    (h : startBackupSetup w = (tr, some cfg)) : LogInv cfg (startBackupInit w) := by
  rw [init_of_setup w tr cfg h]
  refine ⟨fun hb => ?_, fun hr => absurd hr (by simp)⟩
  unfold startBackupSetup at h
  cases ho : w.openConfig with
  | some err => simp [ho] at h
  | none =>
    cases hp : w.unmarshal w.configBytes with
    | error err => simp [ho, hp] at h
    | ok c =>
      cases hl : w.openLog with
      | some err =>
        simp only [ho, hp, setupLogging, hl] at h
        cases hc : c.EnableLogging <;> cases hm : w.mkdirAll <;> simp [hc, hm] at h
        all_goals (obtain ⟨_, hcfg⟩ := h; rw [← hcfg] at hb; rw [hb] at hc; exact absurd hc (by simp))
      | none =>
        simp only [ho, hp, setupLogging, hl] at h
        cases hc : c.EnableLogging <;> cases hm : w.mkdirAll <;> simp [hc, hm] at h
        · obtain ⟨_, hcfg⟩ := h; rw [← hcfg] at hb; rw [hb] at hc; exact absurd hc (by simp)
        · obtain ⟨htr, _⟩ := h
          subst htr
          simp [State.sink, State.stdout, State.printed, sinkAfter, stdoutFrom, stdoutLines]

/-! ## The fan-out: the final report -/

/-- C5: in a run of `startBackup` that got past the fatal checks with
concurrency bound `C ≥ 1`, replace the outcomes of the units by any other
assignment: the same schedule runs, every goroutine stands where it stood,
`fmt.Println` has written the same lines, and every unit whose own outcomes
are unchanged has made the same calls; with logging to a file, standard output
is the same as well.  Once `startBackup` has returned, `fmt.Println` has
written the one line `All database backups completed`, that line is the last
on standard output, and with logging to a file it is all of standard output.
And from any state in which every unit has ended the main goroutine, stepping
alone, returns normally with that line written. -/
theorem C5_summary_independent (w : World) (env : Env) (outcome' : Nat → Outcome)
    (tr : List Effect) (cfg : DBConfig) (sched : List Thread) (s : State)
    (hsetup : startBackupSetup w = (tr, some cfg))
    (hC : 1 ≤ env.maxConcurrency)
    (hrun : run env (startBackupInit w) sched = some s) :
    (∃ s', run { env with outcome := outcome' } (startBackupInit w) sched = some s' ∧
        SameControl s s' ∧ s'.printed = s.printed ∧
        (cfg.EnableLogging = true → s'.stdout = s.stdout) ∧
        ∀ i, outcome' i = env.outcome i → s'.traceOf (.unit i) = s.traceOf (.unit i)) ∧
      (s.pc = .returned →
        s.printed = [completionLine] ∧
          s.stdout.getLast? = some (.printed completionLine) ∧
          (cfg.EnableLogging = true → s.stdout = [.printed completionLine])) ∧
      (s.units.length = cfg.DBLists.length → (∀ u ∈ s.units, u = UnitPc.finished) →
        ∃ k sf, run env s (List.replicate k .main) = some sf ∧ sf.pc = .returned ∧
          sf.printed = [completionLine] ∧
          sf.stdout.getLast? = some (.printed completionLine)) := by
  obtain ⟨hn, hinv⟩ := inv_reachable w env tr cfg sched s hsetup hrun
  have hout := out_run env sched _ s (out_init w) hrun
  have hT := trace_run env sched _ s (trace_init env w) hrun
  have hL := log_run env cfg sched _ s (log_init w tr cfg hsetup) hrun
  refine ⟨?_, ?_, ?_⟩
  · obtain ⟨s', hrun', hc⟩ := run_control env { env with outcome := outcome' } rfl sched
      (startBackupInit w) (startBackupInit w) s ⟨rfl, rfl, rfl, rfl, rfl⟩ hrun
    have hout' := out_run _ sched _ s' (out_init w) hrun'
    have hT' := trace_run _ sched _ s' (trace_init _ w) hrun'
    have hL' := log_run _ cfg sched _ s' (log_init w tr cfg hsetup) hrun'
    obtain ⟨hd, hp, hu, _, _⟩ := hc
    have hpr : s'.printed = s.printed := by
      unfold OutInv at hout hout'
      rw [hout, hout', hp]
    refine ⟨s', hrun', ⟨hd, hp, hu, by assumption, by assumption⟩, hpr, ?_, ?_⟩
    · intro hb
      rw [(hL.1 hb).2, (hL'.1 hb).2, hpr]
    · intro i hi
      rw [hT i, hT' i, hu, hd]
      rw [unitResult_congr env { env with outcome := outcome' } s.dbConfig i rfl rfl hi]
  · intro hpc
    unfold OutInv at hout
    have hpr : s.printed = [completionLine] := by rw [hout, if_pos hpc]
    refine ⟨hpr, hL.2 hpc, fun hb => ?_⟩
    rw [(hL.1 hb).2, hpr]
    rfl
  · intro hlen hfin
    obtain ⟨k, sf, hk, hpc⟩ := main_finishes env _ s hn hinv (by omega) hlen hfin
    have houtf := out_run env _ s sf hout hk
    have hLf := log_run env cfg _ s sf hL hk
    unfold OutInv at houtf
    exact ⟨k, sf, hk, hpc, by rw [houtf, if_pos hpc], hLf.2 hpc⟩

/-- C5 at the sample run, where the logger points at standard output: with
every pipeline succeeding the complete schedule ends returned, `fmt.Println`
has written the one summary line and it is the last line on standard output;
with every dump failing the same schedule runs, every goroutine ends in the
same place and `fmt.Println` has written the same. -/
theorem C5_summary_independent_witness :
    ∃ s, run (sampleEnv allSucceed) (startBackupInit sampleWorld) sampleSchedule = some s ∧
      s.pc = .returned ∧ s.printed = [completionLine] ∧
      s.stdout.getLast? = some (.printed completionLine) ∧
      ∃ s', run { sampleEnv allSucceed with outcome := allDumpsFail }
          (startBackupInit sampleWorld) sampleSchedule = some s' ∧
        SameControl s s' ∧ s'.printed = s.printed := by
  have key : ∀ s,
      run (sampleEnv allSucceed) (startBackupInit sampleWorld) sampleSchedule = some s →
      ∃ s', run { sampleEnv allSucceed with outcome := allDumpsFail }
          (startBackupInit sampleWorld) sampleSchedule = some s' ∧
        SameControl s s' ∧ s'.printed = s.printed := fun s hs =>
    match (C5_summary_independent sampleWorld (sampleEnv allSucceed) allDumpsFail _ sampleConfig
      sampleSchedule s rfl (by decide) hs).1 with
    | ⟨s', h1, h2, h3, _⟩ => ⟨s', h1, h2, h3⟩
  exact ⟨_, rfl, rfl, rfl, rfl, key _ rfl⟩

/-! ## The configuration loader -/

/-- C6: when `json.Unmarshal` rejects the content of `config.json` (as it does
every content that is not valid JSON), `startBackup` ends in `log.Fatalf` at
the parse step: its calls are the open, the read and the fatal message, the
fan-out starts in the exited state from which no goroutine can step, no unit
exists, and no call creates the output directory, redirects the log sink,
spawns a unit or starts a subprocess; `listBackups` makes the same three calls
and does not read the output directory. -/
theorem C6_malformed_config_aborts (w : World) (err : String)
    (hopen : w.openConfig = none)
    (hparse : w.unmarshal w.configBytes = .error err) :
    startBackupSetup w =
        ([.openFile "config.json", .readAll,
          .logFatalf (Sprintf "Failed to parse config file: %v" [err])], none) ∧
      (∀ e ∈ (startBackupSetup w).1, e.isWork = false) ∧
      (startBackupInit w).pc = .exited ∧
      (∀ (env : Env) (sched : List Thread) (s : State),
        run env (startBackupInit w) sched = some s →
          sched = [] ∧ s = startBackupInit w ∧ s.units = [] ∧
            ∀ p ∈ s.trace, p.2.isWork = false) ∧
      listBackups w =
        [.openFile "config.json", .readAll,
          .logFatalf (Sprintf "Failed to parse config file: %v" [err])] ∧
      ∀ e ∈ listBackups w, e.isWork = false := by
  have hsetup : startBackupSetup w =
      ([.openFile "config.json", .readAll,
        .logFatalf (Sprintf "Failed to parse config file: %v" [err])], none) := by
    simp [startBackupSetup, hopen, hparse]
  have hlist : listBackups w =
      [.openFile "config.json", .readAll,
        .logFatalf (Sprintf "Failed to parse config file: %v" [err])] := by
    simp [listBackups, hopen, hparse]
  have hinit : startBackupInit w =
      { dbConfig := ⟨"", false, []⟩, pc := .exited, units := [], sem := 0, wg := 0,
        trace := [(.main, .openFile "config.json"), (.main, .readAll),
          (.main, .logFatalf (Sprintf "Failed to parse config file: %v" [err]))] } := by
    simp [startBackupInit, hsetup]
  refine ⟨hsetup, ?_, ?_, ?_, hlist, ?_⟩
  · rw [hsetup]
    simp [Effect.isWork]
  · rw [hinit]
  · intro env sched s hrun
    cases sched with
    | nil =>
      simp only [run, Option.some.injEq] at hrun
      subst hrun
      refine ⟨rfl, rfl, ?_, ?_⟩
      · rw [hinit]
      · rw [hinit]
        simp [Effect.isWork]
    | cons t ts =>
      exfalso
      rw [hinit] at hrun
      cases t <;> simp [run, step, stepMain, stepUnit, MainPc.alive] at hrun
  · rw [hlist]
    simp [Effect.isWork]

/-- C6 at a world whose `config.json` holds text that `json.Unmarshal` rejects. -/
theorem C6_malformed_config_aborts_witness :
    startBackupSetup { sampleWorld with
        configBytes := "not json", unmarshal := fun _ => .error "invalid character" } =
      ([.openFile "config.json", .readAll,
        .logFatalf "Failed to parse config file: invalid character"], none) :=
  (C6_malformed_config_aborts { sampleWorld with
      configBytes := "not json", unmarshal := fun _ => .error "invalid character" }
    "invalid character" rfl rfl).1

/-! ## `listBackups` -/

theorem stdoutLines_println (files : List String) :
    stdoutLines (files.map Effect.println) = files := by
  induction files with
  | nil => rfl
  | cons f fs ih =>
    simp only [stdoutLines, List.map_cons, List.filterMap_cons] at ih ⊢
    rw [ih]

/-- C7: when the run of `listBackups` gets to read the output directory and the
read returns the entries `files`, standard output is the one line
`No backup files found` if there is none, else the header `Backed-up files:`
followed by the names of the entries, one a line, in the order returned: one
line more than there are entries. -/
theorem C7_listing_output (w : World) (cfg : DBConfig) (files : List String)
    (hopen : w.openConfig = none)
    (hparse : w.unmarshal w.configBytes = .ok cfg)
    (hlog : cfg.EnableLogging = true → w.openLog = none)
    (hread : w.readDir cfg.BackupTargetPath = .ok files) :
    (files = [] → stdoutLines (listBackups w) = ["No backup files found"]) ∧
      (files ≠ [] → stdoutLines (listBackups w) = "Backed-up files:" :: files ∧
        (stdoutLines (listBackups w)).length = 1 + files.length) := by
  have hmap := stdoutLines_println files
  have hsl : ∃ logging, setupLogging w cfg.EnableLogging = (logging, true) ∧
      stdoutLines logging = [] := by
    have h := setupLogging_stdout w cfg.EnableLogging
    unfold setupLogging at h ⊢
    cases hb : cfg.EnableLogging with
    | false => exact ⟨_, rfl, by simp [stdoutLines]⟩
    | true =>
      rw [hlog hb]
      exact ⟨_, rfl, by simp [stdoutLines]⟩
  obtain ⟨logging, hsl, hnone⟩ := hsl
  constructor
  · intro hf
    subst hf
    simp only [listBackups, hopen, hparse, hsl, hread, List.length_nil, if_true,
      stdoutLines_append, hnone]
    simp [stdoutLines]
  · intro hf
    have hlen : ¬ files.length = 0 := by
      intro h0
      exact hf (List.length_eq_zero.mp h0)
    have : stdoutLines (listBackups w) = "Backed-up files:" :: files := by
      simp only [listBackups, hopen, hparse, hsl, hread, hlen, if_false,
        stdoutLines_append, hnone, hmap]
      simp [stdoutLines]
    rw [this]
    exact ⟨rfl, by simp; omega⟩

/-- C7 at the sample world, whose output directory holds `a.gz` and `b.gz`. -/
theorem C7_listing_output_witness :
    stdoutLines (listBackups sampleWorld) = ["Backed-up files:", "a.gz", "b.gz"] ∧
      (stdoutLines (listBackups sampleWorld)).length = 1 + 2 :=
  (C7_listing_output sampleWorld sampleConfig ["a.gz", "b.gz"] rfl rfl (by decide) rfl).2
    (by decide)

/-! ## `filepath.Join` on a single-component name -/

theorem splitSep_ne_nil (a : List Char) : splitSep a ≠ [] := by
  cases a with
  | nil => simp [splitSep]
  | cons c r =>
    simp only [splitSep]
    split
    · simp
    · split <;> simp

theorem splitSep_no_sep (b : List Char) (h : '/' ∉ b) : splitSep b = [b] := by
  induction b with
  | nil => rfl
  | cons c r ih =>
    have hc : c ≠ '/' := fun e => h (by simp [e])
    have hr : '/' ∉ r := fun m => h (List.mem_cons_of_mem _ m)
    simp [splitSep, hc, ih hr]

theorem splitSep_append (a b : List Char) :
    splitSep (a ++ '/' :: b) = splitSep a ++ splitSep b := by
  induction a with
  | nil => simp [splitSep]
  | cons c r ih =>
    by_cases hc : c = '/'
    · simp [splitSep, hc, ih]
    · simp only [List.cons_append, splitSep, hc, if_false]
      have ih' : splitSep (r.append ('/' :: b)) = splitSep r ++ splitSep b := ih
      rw [ih']
      cases hs : splitSep r with
      | nil => exact absurd hs (splitSep_ne_nil r)
      | cons h t => simp

theorem joinSep_snoc (xs : List (List Char)) (x : List Char) :
    joinSep (xs ++ [x]) = (if xs = [] then [] else joinSep xs ++ ['/']) ++ x := by
  induction xs with
  | nil => simp [joinSep]
  | cons y ys ih =>
    cases ys with
    | nil => simp [joinSep]
    | cons z zs =>
      have ih' : joinSep (z :: (zs ++ [x])) =
          (if z :: zs = [] then [] else joinSep (z :: zs) ++ ['/']) ++ x := ih
      have e : (y :: z :: zs) ++ [x] = y :: z :: (zs ++ [x]) := rfl
      rw [e]
      simp only [joinSep]
      rw [ih']
      simp

theorem cleanStep_normal (rooted : Bool) (st : List (List Char)) (name : List Char)
    (hlen : 3 ≤ name.length) : cleanStep rooted st name = name :: st := by
  have h1 : name ≠ [] := by intro e; rw [e] at hlen; simp at hlen
  have h2 : name ≠ ['.'] := by intro e; rw [e] at hlen; simp at hlen
  have h3 : name ≠ ['.', '.'] := by intro e; rw [e] at hlen; simp at hlen
  simp [cleanStep, h1, h2, h3]

theorem Clean_dir_name (d name : List Char) (hd : d ≠ []) (hs : '/' ∉ name)
    (hlen : 3 ≤ name.length) :
    Clean (d ++ '/' :: name) =
      ((if d.head? = some '/' then ['/'] else []) ++
        (if ((splitSep d).foldl (cleanStep (d.head? = some '/')) []).reverse = [] then []
          else joinSep ((splitSep d).foldl (cleanStep (d.head? = some '/')) []).reverse ++ ['/']))
        ++ name := by
  have hhead : (d ++ '/' :: name).head? = d.head? := by
    cases d with
    | nil => exact absurd rfl hd
    | cons c r => rfl
  have hne : d ++ '/' :: name ≠ [] := by simp
  have hname : name ≠ [] := by intro e; rw [e] at hlen; simp at hlen
  unfold Clean
  simp only [hne, if_false, hhead, splitSep_append, splitSep_no_sep name hs, List.foldl_append,
    List.foldl_cons, List.foldl_nil, cleanStep_normal _ _ name hlen, List.reverse_cons,
    joinSep_snoc]
  rw [if_neg (by simp [hname])]
  simp [List.append_assoc]

theorem Clean_name (name : List Char) (hs : '/' ∉ name) (hlen : 3 ≤ name.length) :
    Clean name = name := by
  have hname : name ≠ [] := by intro e; rw [e] at hlen; simp at hlen
  have hhead : ¬ (name.head? = some '/') := by
    intro e
    cases name with
    | nil => simp at e
    | cons c r =>
      simp only [List.head?_cons, Option.some.injEq] at e
      exact hs (by simp [e])
  unfold Clean
  simp [hname, hhead, splitSep_no_sep name hs, cleanStep_normal _ _ name hlen, joinSep]

theorem Join_single (dir : String) : ∃ pre : List Char, ∀ name : String,
    '/' ∉ name.data → 3 ≤ name.data.length → (Join dir name).data = pre ++ name.data := by
  by_cases hd : dir = ""
  · refine ⟨[], fun name hs hlen => ?_⟩
    have hn : name ≠ "" := by
      intro e
      rw [e] at hlen
      simp at hlen
    simp [Join, hd, hn, Clean_name name.data hs hlen]
  · have hdd : dir.data ≠ [] := by
      intro e
      exact hd (String.ext (by simpa using e))
    refine ⟨(if dir.data.head? = some '/' then ['/'] else []) ++
        (if ((splitSep dir.data).foldl (cleanStep (dir.data.head? = some '/')) []).reverse = []
          then []
          else joinSep ((splitSep dir.data).foldl
            (cleanStep (dir.data.head? = some '/')) []).reverse ++ ['/']),
      fun name hs hlen => ?_⟩
    simp only [Join, hd, ne_eq, not_false_eq_true, if_true]
    exact Clean_dir_name dir.data name.data hdd hs hlen

theorem Join_single_inj (dir a b : String) (ha : '/' ∉ a.data) (hb : '/' ∉ b.data)
    (hla : 3 ≤ a.data.length) (hlb : 3 ≤ b.data.length) (h : Join dir a = Join dir b) :
    a = b := by
  obtain ⟨pre, hpre⟩ := Join_single dir
  have h2 := congrArg String.data h
  rw [hpre a ha hla, hpre b hb hlb] at h2
  exact String.ext (List.append_cancel_left h2)

theorem digitChar_ne_slash : ∀ d, d < 10 → Nat.digitChar d ≠ '/' := by
  decide

theorem toDigitsCore_no_slash (fuel : Nat) : ∀ (n : Nat) (ds : List Char),
    '/' ∉ ds → '/' ∉ Nat.toDigitsCore 10 fuel n ds := by
  induction fuel with
  | zero => intro n ds h; simpa [Nat.toDigitsCore] using h
  | succ f ih =>
    intro n ds h
    have hc : '/' ∉ Nat.digitChar (n % 10) :: ds := by
      simp only [List.mem_cons, not_or]
      exact ⟨fun e => digitChar_ne_slash _ (Nat.mod_lt _ (by decide)) e.symm, h⟩
    simp only [Nat.toDigitsCore]
    split
    · exact hc
    · exact ih _ _ hc

theorem appendInt_no_slash (x width : Nat) : '/' ∉ appendInt x width := by
  unfold appendInt
  split
  · rename_i h
    simp only [List.mem_cons, List.mem_singleton, List.not_mem_nil, or_false, not_or]
    exact ⟨fun e => digitChar_ne_slash _ (by omega) e.symm,
      fun e => digitChar_ne_slash _ (by omega) e.symm⟩
  · simp only [List.mem_append, not_or]
    refine ⟨?_, toDigitsCore_no_slash _ _ _ (by simp)⟩
    intro h
    have := List.eq_of_mem_replicate h
    exact absurd this (by decide)

theorem gzName_no_slash (db : DBInfo) (t : Time) (h1 : '/' ∉ db.DBNumber.data)
    (h2 : '/' ∉ db.DBName.data) : '/' ∉ (gzName db t).data := by
  rw [gzName_data]
  have a := appendInt_no_slash
  simp only [List.mem_append, List.mem_cons, not_or]
  refine ⟨⟨⟨h1, by decide, h2⟩, by decide, a _ _⟩, ⟨a _ _, a _ _, by decide, a _ _, a _ _, a _ _⟩,
    by decide⟩

theorem gzName_length (db : DBInfo) (t : Time) : 3 ≤ (gzName db t).data.length := by
  rw [gzName_data]
  simp only [List.length_append, List.length_cons]
  have : ".sql.gz".data.length = 7 := by decide
  omega

/-! ## Collisions of destination paths -/

/-- C10, as the claim states it, fails in two ways.  The identifiers `a_b` and
`a` with the names `c` and `b_c`, captured in the same second, get the same
destination path under every path-joining function and every output
directory.  And the identifiers `./01` and `01` with the same name, captured
in the same second, get the same destination path under `filepath.Join`,
which cleans the path. -/
theorem C10_counterexample :
    ((∀ (join : String → String → String) (dir : String),
        gzFilename join ⟨"a_b", "c", "u", "p", "h", ""⟩ dir ⟨2024, 3, 5, 12, 0, 0, 0⟩ =
          gzFilename join ⟨"a", "b_c", "u", "p", "h", ""⟩ dir ⟨2024, 3, 5, 12, 0, 0, 0⟩) ∧
      (⟨"a_b", "c", "u", "p", "h", ""⟩ : DBInfo).DBNumber ≠
        (⟨"a", "b_c", "u", "p", "h", ""⟩ : DBInfo).DBNumber) ∧
    (gzFilename Join ⟨"./01", "orders", "u", "p", "h", ""⟩ "/backups" ⟨2024, 3, 5, 12, 0, 0, 0⟩ =
        gzFilename Join ⟨"01", "orders", "u", "p", "h", ""⟩ "/backups"
          ⟨2024, 3, 5, 12, 0, 0, 0⟩ ∧
      gzFilename Join ⟨"01", "orders", "u", "p", "h", ""⟩ "/backups" ⟨2024, 3, 5, 12, 0, 0, 0⟩ =
        "/backups/01_orders_20240305_120000.sql.gz" ∧
      (⟨"./01", "orders", "u", "p", "h", ""⟩ : DBInfo).DBNumber ≠
        (⟨"01", "orders", "u", "p", "h", ""⟩ : DBInfo).DBNumber) := by
  refine ⟨⟨fun join dir => ?_, by decide⟩, by decide, by decide, by decide⟩
  unfold gzFilename
  congr 1

/-- C10 (amended): for two targets whose identifiers and names contain no path
separator, and such that neither identifier contains an underscore or neither
name does, for two well-formed capture instants and one output directory: if
`backupDatabase` builds the same destination path for both, the targets have
the same identifier and the same name and the instants lie in the same
wall-clock second, so two such units write to one file only in that case. -/
theorem C10_destination_injective (db1 db2 : DBInfo) (dir : String) (t1 t2 : Time)
    (w1 : t1.wellFormed) (w2 : t2.wellFormed)
    (hsep : ('_' ∉ db1.DBNumber.data ∧ '_' ∉ db2.DBNumber.data) ∨
      ('_' ∉ db1.DBName.data ∧ '_' ∉ db2.DBName.data))
    (hslash : '/' ∉ db1.DBNumber.data ∧ '/' ∉ db1.DBName.data ∧
      '/' ∉ db2.DBNumber.data ∧ '/' ∉ db2.DBName.data)
    (h : gzFilename Join db1 dir t1 = gzFilename Join db2 dir t2) :
    db1.DBNumber = db2.DBNumber ∧ db1.DBName = db2.DBName ∧ t1.sameSecond t2 := by
  obtain ⟨s1, s2, s3, s4⟩ := hslash
  have hname : gzName db1 t1 = gzName db2 t2 :=
    Join_single_inj dir _ _ (gzName_no_slash db1 t1 s1 s2) (gzName_no_slash db2 t2 s3 s4)
      (gzName_length db1 t1) (gzName_length db2 t2) h
  exact gzName_injective db1 db2 t1 t2 w1 w2 hsep hname

/-- C10 (amended), at two units for the same target one nanosecond apart,
writing into `/backups`. -/
theorem C10_destination_injective_witness :
    gzFilename Join ⟨"01", "orders", "u", "p", "h", ""⟩ "/backups" ⟨2024, 3, 5, 12, 0, 0, 1⟩ =
        gzFilename Join ⟨"01", "orders", "v", "q", "k", "x"⟩ "/backups"
          ⟨2024, 3, 5, 12, 0, 0, 2⟩ ∧
      (⟨"01", "orders", "u", "p", "h", ""⟩ : DBInfo).DBNumber =
        (⟨"01", "orders", "v", "q", "k", "x"⟩ : DBInfo).DBNumber ∧
      (⟨"01", "orders", "u", "p", "h", ""⟩ : DBInfo).DBName =
        (⟨"01", "orders", "v", "q", "k", "x"⟩ : DBInfo).DBName ∧
      Time.sameSecond ⟨2024, 3, 5, 12, 0, 0, 1⟩ ⟨2024, 3, 5, 12, 0, 0, 2⟩ :=
  ⟨by decide,
    C10_destination_injective ⟨"01", "orders", "u", "p", "h", ""⟩
      ⟨"01", "orders", "v", "q", "k", "x"⟩ "/backups" ⟨2024, 3, 5, 12, 0, 0, 1⟩
      ⟨2024, 3, 5, 12, 0, 0, 2⟩
      (by decide) (by decide) (Or.inl ⟨by decide, by decide⟩)
      ⟨by decide, by decide, by decide, by decide⟩ (by decide)⟩

end GoBackup
